import Mathlib

/-!
Shallow embedding of the python-worker core of the portfolio-analyzer
repository (src/python-worker/src): utils/date_utils.py, utils/number_utils.py,
processors/categorizer.py, processors/transformer.py, processors/merger.py and
orchestrator.py, together with proofs settling the frozen claims about them.

Modelling conventions:
* Python strings are Lean Strings; character-level work happens on the
  underlying character lists.  String order is code-point lexicographic, the
  semantics of Python string comparison.
* Python floats are modelled exactly as parsed decimal values: an unnormalized
  mantissa times a power of ten, plus infinity and nan constructors.  No claim
  performs float arithmetic.
* Cells of a loaded table are modelled by an inductive type covering the cases
  the code distinguishes: a missing value (pandas NA), a string, a number, and
  a datetime-like object (the path taken for objects carrying strftime).
  Character classes of the regular expressions involved are modelled over
  ASCII.
* CPython specifics that the code relies on are modelled faithfully: the
  re.match fast path of parse_date also accepts exactly one trailing newline
  (the dollar anchor matches before a final newline); strptime accepts one- or
  two-digit month and day fields; strftime of a year below 1000 is not
  zero-padded (glibc behaviour).
-/

/-! ### Character and string primitives -/

/-- ASCII decimal digit test, the character class of the regex patterns used
by date parsing. -/
def isDigitC (c : Char) : Bool :=
  decide (48 ≤ c.toNat) && decide (c.toNat ≤ 57)

/-- Whitespace stripped by Python str.strip and matched by the whitespace
class of the money-symbol regex (ASCII part). -/
def isPyWs (c : Char) : Bool :=
  c == ' ' || c == '\t' || c == '\n' || c == '\r' ||
  c == Char.ofNat 11 || c == Char.ofNat 12

/-- Python str.strip on the underlying character list. -/
def stripChars (l : List Char) : List Char :=
  ((l.dropWhile isPyWs).reverse.dropWhile isPyWs).reverse

/-- Python str.strip. -/
def pyStrip (s : String) : String :=
  String.mk (stripChars s.data)

/-- ASCII lower-casing of one character (Python str.lower on the ASCII range,
which covers every keyword the categorizer matches). -/
def lowerC (c : Char) : Char :=
  if 65 ≤ c.toNat ∧ c.toNat ≤ 90 then Char.ofNat (c.toNat + 32) else c

/-- Python str.lower. -/
def pyLower (s : String) : String :=
  String.mk (s.data.map lowerC)

/-- Code-point lexicographic strict order on character lists: the comparison
Python uses for strings. -/
def lexLt : List Char → List Char → Bool
  | _, [] => false
  | [], _ :: _ => true
  | a :: as, b :: bs =>
    if a.toNat < b.toNat then true
    else if b.toNat < a.toNat then false
    else lexLt as bs

/-- Python string strict comparison s < t. -/
def pyStrLt (s t : String) : Bool := lexLt s.data t.data

/-- Python string comparison s <= t (negation of t < s; code points form a
total order). -/
def pyStrLe (s t : String) : Bool := !lexLt t.data s.data

/-- Containment test used to model Python startswith on character lists. -/
def startsWithL : List Char → List Char → Bool
  | [], _ => true
  | _ :: _, [] => false
  | p :: ps, c :: cs => p == c && startsWithL ps cs

/-- Python substring containment: pat in s. -/
def containsSub (pat : List Char) : List Char → Bool
  | [] => pat.isEmpty
  | c :: cs => startsWithL pat (c :: cs) || containsSub pat cs

/-- Python substring containment on strings. -/
def pyContains (s pat : String) : Bool := containsSub pat.data s.data

/-- Digit character for a value below ten (used by strftime modelling). -/
def dc (n : Nat) : Char := Char.ofNat (48 + n % 10)

/-- Decimal value of a run of ASCII digits. -/
def natOfDigits (l : List Char) : Nat :=
  l.foldl (fun a c => a * 10 + (c.toNat - 48)) 0

/-- Decimal digit list of a natural number, no padding (repr of Python int,
and the glibc rendering of strftime year fields). -/
def natChars (n : Nat) : List Char :=
  if n < 10 then [dc n]
  else if n < 100 then [dc (n / 10), dc n]
  else if n < 1000 then [dc (n / 100), dc (n / 10), dc n]
  else [dc (n / 1000), dc (n / 100), dc (n / 10), dc n]

/-! ### number_utils.py: parse_float -/

/-- Python float values as far as this code base observes them: a finite
decimal (unnormalized mantissa times a power of ten), an infinity, or nan.
No arithmetic is ever performed on parsed amounts, so the decimal
representation is kept exact. -/
inductive PyFloat where
  | num (mant : Int) (exp10 : Int)
  | inf (neg : Bool)
  | nan
deriving DecidableEq, Repr

/-- Characters removed by the money-cleaning regex of parse_float: currency
glyphs, commas and whitespace. -/
def isMoneyJunk (c : Char) : Bool :=
  c == '$' || c == '€' || c == '£' || c == ',' || isPyWs c

/-- Check that every underscore of a candidate float literal sits between two
digits (the placement rule of Python numeric literals), then drop them. -/
def underscoresOk : List Char → Bool
  | [] => true
  | '_' :: _ => false
  | c :: rest => go c rest
where
  go : Char → List Char → Bool
  | _, [] => true
  | _, ['_'] => false
  | prev, '_' :: d :: rest => isDigitC prev && isDigitC d && go d rest
  | _, c :: rest => go c rest

/-- Split a character list at the first occurrence of one of two marker
characters; returns the part before and, when a marker was found, the part
after it. -/
def splitFirst (m1 m2 : Char) : List Char → List Char × Option (List Char)
  | [] => ([], none)
  | c :: cs =>
    if c == m1 || c == m2 then ([], some cs)
    else
      let r := splitFirst m1 m2 cs
      (c :: r.1, r.2)

/-- Mantissa part of a float literal: digits with at most one decimal point
and at least one digit overall. Returns the digits and the number of
fractional places. -/
def parseMantissa (l : List Char) : Option (Nat × Nat) :=
  let (ip, rest) := splitFirst '.' '.' l
  match rest with
  | none =>
    if !ip.isEmpty && ip.all isDigitC then some (natOfDigits ip, 0) else none
  | some fp =>
    if !(ip ++ fp).isEmpty && ip.all isDigitC && fp.all isDigitC && !fp.contains '.'
    then some (natOfDigits (ip ++ fp), fp.length) else none

/-- Optional sign at the head of a literal; returns whether it was a minus
and the remainder. -/
def takeSign : List Char → Bool × List Char
  | '+' :: rest => (false, rest)
  | '-' :: rest => (true, rest)
  | l => (false, l)

/-- Exponent part of a float literal. -/
def parseExp (l : List Char) : Option Int :=
  let (neg, ds) := takeSign l
  if ds ≠ [] && ds.all isDigitC then
    some (if neg then -(natOfDigits ds : Int) else (natOfDigits ds : Int))
  else none

/-- The grammar of Python float() on an already-cleaned literal (no
whitespace left): optional sign, then inf/infinity/nan (case-insensitive) or
a decimal with optional exponent. -/
def pyFloatOfChars (l0 : List Char) : Option PyFloat :=
  let (neg, l) := takeSign l0
  let low := l.map lowerC
  if low = "inf".data || low = "infinity".data then some (.inf neg)
  else if low = "nan".data then some .nan
  else if !underscoresOk l then none
  else
    let l := l.filter (fun c => c != '_')
    let (mpart, epart) := splitFirst 'e' 'E' l
    match parseMantissa mpart with
    | none => none
    | some (m, places) =>
      let sm : Int := if neg then -(m : Int) else (m : Int)
      match epart with
      | none => some (.num sm (-(places : Int)))
      | some ech =>
        match parseExp ech with
        | none => none
        | some e => some (.num sm (e - places))

/-! ### Cells of a loaded table -/

/-- One cell of a row as the core observes it after loading: missing (pandas
NA), a string, a numeric value, or a datetime-like object (the objects for
which parse_date takes the strftime path). -/
inductive Cell where
  | na
  | str (s : String)
  | num (x : PyFloat)
  | dt (y m d : Nat)
deriving DecidableEq, Repr

/-- Python truthiness of a cell value, used by the company-symbol default
check of the transformer. -/
def pyTruthy : Cell → Bool
  | .na => false
  | .str s => !(s == "")
  | .num (.num m _) => !(m == 0)
  | .num _ => true
  | .dt _ _ _ => true

/-- Decimal rendering of a PyFloat, modelling str() of a Python float up to
the shortest-repr refinement (no claim depends on the exact text of a
stringified number). -/
def floatRepr : PyFloat → String
  | .nan => "nan"
  | .inf true => "-inf"
  | .inf false => "inf"
  | .num m e =>
    let sign := if m < 0 then "-" else ""
    let mag := m.natAbs
    if e = 0 then sign ++ String.mk (natChars mag) ++ ".0"
    else sign ++ String.mk (natChars mag) ++ "e" ++ toString e

/-- Python str() of a cell value.  A missing cell prints as nan, the pandas
rendering of a missing value. -/
def pyStr : Cell → String
  | .na => "nan"
  | .str s => s
  | .num x => floatRepr x
  | .dt y m d =>
    String.mk (natChars y) ++ "-" ++ String.mk [dc (m / 10), dc m] ++ "-" ++
      String.mk [dc (d / 10), dc d] ++ " 00:00:00"

/-- parse_float of number_utils.py: None and NA fail, numbers pass through,
strings are stripped, cleaned of currency glyphs, commas and whitespace, and
fed to float(); any other object fails. -/
def parse_float : Cell → Option PyFloat
  | .na => none
  | .num x => some x
  | .dt _ _ _ => none
  | .str s =>
    let cleaned0 := stripChars s.data
    if cleaned0 = [] then none
    else
      let cleaned := cleaned0.filter (fun c => !isMoneyJunk c)
      pyFloatOfChars cleaned

/-! ### date_utils.py -/

/-- Field order of one strptime pattern. -/
inductive Ord3 where
  | ymd
  | mdy
  | dmy
deriving DecidableEq, Repr

/-- Split a character list on every occurrence of a separator character. -/
def splitSep (sep : Char) : List Char → List (List Char)
  | [] => [[]]
  | c :: cs =>
    let r := splitSep sep cs
    if c == sep then [] :: r else (c :: r.headD []) :: r.tail

/-- Leap-year rule of the proleptic Gregorian calendar used by datetime. -/
def isLeapYear (y : Nat) : Bool :=
  y % 4 == 0 && (y % 100 != 0 || y % 400 == 0)

/-- Days in a month as validated by the datetime constructor. -/
def daysInMonth (y m : Nat) : Nat :=
  if m == 2 then (if isLeapYear y then 29 else 28)
  else if m == 4 || m == 6 || m == 9 || m == 11 then 30
  else 31

/-- Year field of a strptime pattern: exactly four digits. -/
def parse4Year (l : List Char) : Option Nat :=
  if l.length = 4 ∧ l.all isDigitC then some (natOfDigits l) else none

/-- Month or day field of a strptime pattern: one or two digits whose value
lies in the pattern's range (CPython accepts unpadded single digits). -/
def parse2Field (lo hi : Nat) (l : List Char) : Option Nat :=
  if (l.length = 1 ∨ l.length = 2) ∧ l.all isDigitC then
    let v := natOfDigits l
    if lo ≤ v ∧ v ≤ hi then some v else none
  else none

/-- One datetime.strptime call for a three-field date pattern with the given
separator and field order, including the calendar validation performed by the
datetime constructor. -/
def strptimeDate (sep : Char) (ord : Ord3) (l : List Char) : Option (Nat × Nat × Nat) :=
  match splitSep sep l with
  | [f1, f2, f3] =>
    let yf := match ord with | .ymd => f1 | .mdy => f3 | .dmy => f3
    let mf := match ord with | .ymd => f2 | .mdy => f1 | .dmy => f2
    let df := match ord with | .ymd => f3 | .mdy => f2 | .dmy => f1
    match parse4Year yf, parse2Field 1 12 mf, parse2Field 1 31 df with
    | some y, some m, some d =>
      if 1 ≤ y ∧ d ≤ daysInMonth y m then some (y, m, d) else none
    | _, _, _ => none
  | _ => none

/-- The ordered format list of parse_date. -/
def DATE_FORMATS : List (Char × Ord3) :=
  [('-', .ymd), ('/', .mdy), ('/', .dmy), ('/', .ymd), ('-', .dmy), ('-', .mdy)]

/-- Try the formats in order, returning the first successful parse. -/
def tryFormats (l : List Char) : List (Char × Ord3) → Option (Nat × Nat × Nat)
  | [] => none
  | (sep, ord) :: rest =>
    match strptimeDate sep ord l with
    | some ymd => some ymd
    | none => tryFormats l rest

/-- Exact shape of the fast-path regex of parse_date: four digits, hyphen,
two digits, hyphen, two digits. -/
def isShape : List Char → Bool
  | [a, b, c, d, h1, e, f, h2, g, i] =>
    isDigitC a && isDigitC b && isDigitC c && isDigitC d && h1 == '-' &&
    isDigitC e && isDigitC f && h2 == '-' && isDigitC g && isDigitC i
  | _ => false

/-- re.match of the fast-path pattern anchored with a dollar: Python's dollar
also matches just before one trailing newline. -/
def fastPathMatch (s : String) : Bool :=
  isShape s.data ||
    (s.data.getLast? == some '\n' && isShape s.data.dropLast)

/-- datetime.strftime of a date value with the %Y-%m-%d pattern: month and
day are zero-padded to two digits; the year is printed as a plain decimal
number, so years below 1000 are not zero-padded (glibc behaviour). -/
def formatDate (y m d : Nat) : String :=
  String.mk (natChars y ++ '-' :: [dc (m / 10), dc m] ++ '-' :: [dc (d / 10), dc d])

/-- parse_date of date_utils.py.  None fails; a string is echoed when the
fast-path regex matches, otherwise stripped and tried against the format
list, the first successful parse being re-rendered by strftime; a
datetime-like value is rendered by strftime; anything else (including plain
numbers) fails. -/
def parse_date : Cell → Option String
  | .na => none
  | .num _ => none
  | .dt y m d => some (formatDate y m d)
  | .str s =>
    if fastPathMatch s then some s
    else
      match tryFormats (stripChars s.data) DATE_FORMATS with
      | some (y, m, d) => some (formatDate y m d)
      | none => none

/-- Strict lexicographic order on parsed date triples: the comparison of two
datetime values. -/
def ymdLtB (t1 t2 : Nat × Nat × Nat) : Bool :=
  decide (t1.1 < t2.1) ||
  (decide (t1.1 = t2.1) && (decide (t1.2.1 < t2.2.1) ||
    (decide (t1.2.1 = t2.2.1) && decide (t1.2.2 < t2.2.2))))

/-- compare_dates of date_utils.py: parse both strings with the dash pattern
(no stripping); any failure makes the pair compare equal. -/
def compare_dates (d1 d2 : String) : Int :=
  match strptimeDate '-' .ymd d1.data, strptimeDate '-' .ymd d2.data with
  | some t1, some t2 =>
    if ymdLtB t1 t2 then -1 else if ymdLtB t2 t1 then 1 else 0
  | _, _ => 0

/-- Stable insertion used by the model of Python's stable sort: an element is
placed before the first list element it compares less-or-equal to. -/
def orderedInsertB (leB : α → α → Bool) (x : α) : List α → List α
  | [] => [x]
  | y :: ys => if leB x y then x :: y :: ys else y :: orderedInsertB leB x ys

/-- Stable sort (Python sorted / list.sort semantics for a total order). -/
def pySortBy (leB : α → α → Bool) : List α → List α
  | [] => []
  | x :: xs => orderedInsertB leB x (pySortBy leB xs)

/-- get_date_boundaries of date_utils.py: earliest and latest date string of
a list under Python string order (the None filter of the source is the
identity here because transaction dates are strings). -/
def get_date_boundaries (dates : List String) : Option String × Option String :=
  if dates.isEmpty then (none, none)
  else
    let sortedDates := pySortBy pyStrLe dates
    (sortedDates.head?, sortedDates.getLast?)

/-! ### schemas/models.py -/

/-- Purchase transaction schema. -/
structure Purchase where
  date : String
  company_symbol : String
  quantity : PyFloat
  unit_price : PyFloat
  currency : String
  transaction_fee : Option PyFloat := none
  proceeds_foreign : Option PyFloat := none
  proceeds_ils : Option PyFloat := none
deriving DecidableEq, Repr

/-- Sale transaction schema (same fields as Purchase). -/
structure Sale where
  date : String
  company_symbol : String
  quantity : PyFloat
  unit_price : PyFloat
  currency : String
  transaction_fee : Option PyFloat := none
  proceeds_foreign : Option PyFloat := none
  proceeds_ils : Option PyFloat := none
deriving DecidableEq, Repr

/-- Dividend transaction schema. -/
structure Dividend where
  date : String
  company_symbol : String
  amount : PyFloat
  currency : String
deriving DecidableEq, Repr

/-- Tax withholding transaction schema; the company symbol may be absent. -/
structure Tax where
  date : String
  company_symbol : Option String
  amount : PyFloat
  currency : String
deriving DecidableEq, Repr

/-- Transfer transaction schema (deposits and cash handling fees). -/
structure Transfer where
  date : String
  type : String
  amount : PyFloat
  currency : String
deriving DecidableEq, Repr

/-- ParsedJobResult: the unified output of one job. -/
structure ParsedJobResult where
  jobId : String
  purchases : List Purchase
  sales : List Sale
  dividends : List Dividend
  taxes : List Tax
  transfers : List Transfer
  errors : List String
deriving DecidableEq, Repr

/-! ### processors/categorizer.py -/

def PURCHASE_KEYWORDS : List String := ["Buy", "Purchase", "ExecutedBuy"]
def SALE_KEYWORDS : List String := ["Sell", "Sale", "ExecutedSell"]
def DIVIDEND_KEYWORDS : List String := ["Dividend"]
def TAX_KEYWORDS : List String := ["Withholding", "Tax", "Foreign Tax"]
def DEPOSIT_KEYWORDS : List String := ["Deposit", "Cash Transfer"]
def FEE_KEYWORDS : List String := ["Cash Handling Fee", "Fee", "Handling"]

/-- The six keyword lists in the priority order the categorizer checks them,
paired with the category name each returns. -/
def KEYWORD_TABLE : List (String × List String) :=
  [("purchase", PURCHASE_KEYWORDS), ("sale", SALE_KEYWORDS),
   ("dividend", DIVIDEND_KEYWORDS), ("tax", TAX_KEYWORDS),
   ("deposit", DEPOSIT_KEYWORDS), ("fee", FEE_KEYWORDS)]

/-- Candidate column labels for the transaction type column, in the order
find_transaction_type_column scans them. -/
def POSSIBLE_TYPE_NAMES : List String :=
  ["Transaction Type", "Type", "Transaction", "Action", "TransactionType",
   "transaction_type", "type"]

/-- First index of an element in a list (Python list.index on success). -/
def idxOfStr (x : String) : List String → Nat
  | [] => 0
  | y :: ys => if y == x then 0 else idxOfStr x ys + 1

/-- find_transaction_type_column: exact label match first, then
case-insensitive match returning the original label. -/
def find_transaction_type_column (cols : List String) : Option String :=
  match POSSIBLE_TYPE_NAMES.find? (fun n => cols.contains n) with
  | some n => some n
  | none =>
    let colsLower := cols.map pyLower
    match POSSIBLE_TYPE_NAMES.find? (fun n => colsLower.contains (pyLower n)) with
    | some n => (cols.get? (idxOfStr (pyLower n) colsLower))
    | none => none

/-- Does the lower-cased value contain some keyword of the list
(case-insensitive containment, exactly the loop bodies of the source)? -/
def keywordHit (kws : List String) (tLower : String) : Bool :=
  kws.any (fun kw => pyContains tLower (pyLower kw))

/-- categorize_transaction of categorizer.py.  A row is its list of cells
aligned with the column labels; the value at the type column is stringified,
stripped and lower-cased, then tested against the six keyword lists in
priority order. -/
def categorize_transaction (cols : List String) (row : List Cell)
    (transaction_type_col : Option String) : Option String :=
  match transaction_type_col with
  | none => none
  | some col =>
    if cols.contains col then
      let v := row.getD (idxOfStr col cols) Cell.na
      let tLower := pyLower (pyStrip (pyStr v))
      match KEYWORD_TABLE.find? (fun e => keywordHit e.2 tLower) with
      | some e => some e.1
      | none => none
    else none

/-- Candidate symbol column labels for the dividend fallback. -/
def POSSIBLE_SYMBOL_COLS : List String :=
  ["Company Symbol", "Symbol", "Company", "Ticker", "company_symbol", "symbol"]

/-- Is a cell a pandas NA value (pd.isna)? -/
def cellIsNa : Cell → Bool
  | .na => true
  | .num .nan => true
  | _ => false

/-- get_company_symbol_for_dividend of categorizer.py: the value of the
column immediately right of the type column when present and non-NA, else
the first present non-NA candidate symbol column, else none. -/
def get_company_symbol_for_dividend (cols : List String) (row : List Cell)
    (transaction_type_col : String) : Option String :=
  if cols.contains transaction_type_col then
    let i := idxOfStr transaction_type_col cols
    let primary : Option String :=
      if i + 1 < cols.length then
        let c := row.getD (i + 1) Cell.na
        if !cellIsNa c then some (pyStrip (pyStr c)) else none
      else none
    match primary with
    | some s => some s
    | none => fallback
  else none
where
  fallback : Option String :=
    match POSSIBLE_SYMBOL_COLS.find? (fun n =>
        cols.contains n && !cellIsNa (row.getD (idxOfStr n cols) Cell.na)) with
    | some n => some (pyStrip (pyStr (row.getD (idxOfStr n cols) Cell.na)))
    | none => none

/-! ### processors/transformer.py -/

/-- get_cell_value: read a row cell by zero-based column position, returning
the default when the position is out of range or the value is NA. -/
def get_cell_value (row : List Cell) (column_index : Nat) (dflt : Cell) : Cell :=
  let v := row.getD column_index Cell.na
  if cellIsNa v then dflt else
    if column_index < row.length then v else dflt

/-- transform_to_purchase of transformer.py: positions 0 date, 3 symbol,
4 quantity, 5 unit price, 6 currency, 7 fee, 9 proceeds foreign,
10 proceeds ils.  Date, quantity and unit price are required. -/
def transform_to_purchase (row : List Cell) : Option Purchase :=
  match parse_date (get_cell_value row 0 .na) with
  | none => none
  | some date_str =>
    let cs0 := get_cell_value row 3 (.str "")
    let company_symbol := if pyTruthy cs0 then cs0 else .str ""
    match parse_float (get_cell_value row 4 .na) with
    | none => none
    | some quantity =>
      match parse_float (get_cell_value row 5 .na) with
      | none => none
      | some unit_price =>
        let currency0 := pyStrip (pyStr (get_cell_value row 6 (.str "")))
        let currency := if currency0 == "" then "USD" else currency0
        some {
          date := date_str
          company_symbol := pyStr company_symbol
          quantity := quantity
          unit_price := unit_price
          currency := currency
          transaction_fee := parse_float (get_cell_value row 7 .na)
          proceeds_foreign := parse_float (get_cell_value row 9 .na)
          proceeds_ils := parse_float (get_cell_value row 10 .na) }

/-- transform_to_sale: delegates to the purchase transform and repackages the
fields into a Sale. -/
def transform_to_sale (row : List Cell) : Option Sale :=
  match transform_to_purchase row with
  | none => none
  | some p => some {
      date := p.date
      company_symbol := p.company_symbol
      quantity := p.quantity
      unit_price := p.unit_price
      currency := p.currency
      transaction_fee := p.transaction_fee
      proceeds_foreign := p.proceeds_foreign
      proceeds_ils := p.proceeds_ils }

/-- The amount fallback chain shared by the dividend, tax and transfer
transforms: position 9, then 10, then 5, first parseable float wins. -/
def amountChain (row : List Cell) : Option PyFloat :=
  match parse_float (get_cell_value row 9 .na) with
  | some a => some a
  | none =>
    match parse_float (get_cell_value row 10 .na) with
    | some a => some a
    | none => parse_float (get_cell_value row 5 .na)

/-- Currency read at position 6 with the USD default, shared by all five
transforms. -/
def currencyOf (row : List Cell) : String :=
  let c0 := pyStrip (pyStr (get_cell_value row 6 (.str "")))
  if c0 == "" then "USD" else c0

/-- transform_to_dividend of transformer.py. -/
def transform_to_dividend (row : List Cell) (company_symbol : Option String) :
    Option Dividend :=
  match parse_date (get_cell_value row 0 .na) with
  | none => none
  | some date_str =>
    let cs1 := match company_symbol with
      | none => pyStrip (pyStr (get_cell_value row 3 (.str "")))
      | some s => s
    let cs2 := if cs1 == "" then "" else cs1
    match amountChain row with
    | none => none
    | some amount => some {
        date := date_str
        company_symbol := cs2
        amount := amount
        currency := currencyOf row }

/-- transform_to_tax of transformer.py; an absent symbol stays absent. -/
def transform_to_tax (row : List Cell) (company_symbol : Option String) :
    Option Tax :=
  match parse_date (get_cell_value row 0 .na) with
  | none => none
  | some date_str =>
    let cs : Option String := match company_symbol with
      | none =>
        let s := pyStrip (pyStr (get_cell_value row 3 (.str "")))
        if s == "" then none else some s
      | some s => some s
    match amountChain row with
    | none => none
    | some amount => some {
        date := date_str
        company_symbol := cs
        amount := amount
        currency := currencyOf row }

/-- transform_to_transfer of transformer.py; the transfer type is supplied by
the caller. -/
def transform_to_transfer (row : List Cell) (transfer_type : String) :
    Option Transfer :=
  match parse_date (get_cell_value row 0 .na) with
  | none => none
  | some date_str =>
    match amountChain row with
    | none => none
    | some amount => some {
        date := date_str
        type := transfer_type
        amount := amount
        currency := currencyOf row }

/-! ### processors/merger.py -/

/-- Date-key comparison driving the two-pointer merge: the existing element
is appended while its date compares less-or-equal. -/
def dateLeB (dateOf : α → String) (a b : α) : Bool :=
  decide (compare_dates (dateOf a) (dateOf b) ≤ 0)

/-- Fuelled two-pointer merge loop (the fuel is the remaining total length,
making the model executable; sorted_merge supplies enough fuel for the loop
to run to completion exactly as the while loop of the source does). -/
def smergeF (le : α → α → Bool) : Nat → List α → List α → List α
  | 0, xs, ys => xs ++ ys
  | _ + 1, [], ys => ys
  | _ + 1, x :: xs, [] => x :: xs
  | n + 1, x :: xs, y :: ys =>
    if le x y then x :: smergeF le n xs (y :: ys)
    else y :: smergeF le n (x :: xs) ys

/-- The sorted-merge routine of merger.py: two-pointer merge appending
whichever head has the earlier-or-equal date, then the remainders. -/
def sorted_merge_py (dateOf : α → String) (existing nw : List α) : List α :=
  smergeF (dateLeB dateOf) (existing.length + nw.length) existing nw

/-- The simple-merge fallback of merger.py: concatenate and stable-sort by
date under Python string comparison. -/
def simple_merge_py (dateOf : α → String) (existing nw : List α) : List α :=
  pySortBy (fun a b => pyStrLe (dateOf a) (dateOf b)) (existing ++ nw)

/-- merge_transactions of merger.py: empty-list shortcuts, then the boundary
comparison choosing prepend, append, sorted merge, or (defensively) the
simple merge. -/
def merge_transactions (dateOf : α → String) (existing nw : List α) : List α :=
  if nw.isEmpty then existing
  else if existing.isEmpty then nw
  else
    let existing_dates := existing.map dateOf
    let new_dates := nw.map dateOf
    match get_date_boundaries existing_dates, get_date_boundaries new_dates with
    | (some existing_min, some existing_max), (some new_min, some new_max) =>
      if compare_dates new_max existing_min < 0 then nw ++ existing
      else if compare_dates new_min existing_max > 0 then existing ++ nw
      else sorted_merge_py dateOf existing nw
    | _, _ => simple_merge_py dateOf existing nw

/-! ### orchestrator.py -/

/-- A loaded table: ordered column labels and rows of cells aligned with
them. -/
structure PTable where
  cols : List String
  rows : List (List Cell)
deriving DecidableEq, Repr

/-- Outcome of the (external) file loader for one file: an error message or a
table. -/
inductive FileInput where
  | loadFail (err : String)
  | loaded (t : PTable)
deriving DecidableEq, Repr

/-- One file of a job: its name together with what the external loader
produces for it. -/
structure JobFile where
  name : String
  content : FileInput
deriving DecidableEq, Repr

/-- validate_dataframe of parsers/file_loader.py: a frame with an empty axis
is rejected as empty, a frame without columns is rejected (the second check
is unreachable after the first, as in the source). -/
def validate_dataframe (t : PTable) (filename : String) : Bool × Option String :=
  if t.rows.isEmpty || t.cols.isEmpty then
    (false, some (filename ++ ": File is empty (no rows)"))
  else if t.cols.length = 0 then
    (false, some (filename ++ ": File has no columns"))
  else (true, none)

/-- Python repr of a list of strings, used in the missing-type-column
diagnostic. -/
def pyListRepr (l : List String) : String :=
  "[" ++ String.intercalate ", " (l.map (fun c => "'" ++ c ++ "'")) ++ "]"

/-- The five per-file buckets collected while iterating rows. -/
structure Buckets where
  purchases : List Purchase := []
  sales : List Sale := []
  dividends : List Dividend := []
  taxes : List Tax := []
  transfers : List Transfer := []
deriving DecidableEq, Repr

/-- Per-row step of the orchestrator loop: categorize, dispatch to the
matching transform, and either collect the record or record a diagnostic. -/
def processRow (filename : String) (cols : List String) (ttc : Option String)
    (idx : Nat) (row : List Cell) (acc : Buckets × List String) :
    Buckets × List String :=
  let (bk, errs) := acc
  let rowDiag (what : String) : List String :=
    errs ++ ["File " ++ filename ++ ", row " ++ String.mk (natChars (idx + 1)) ++
      ": Failed to transform " ++ what]
  match categorize_transaction cols row ttc with
  | some "purchase" =>
    match transform_to_purchase row with
    | some p => ({ bk with purchases := bk.purchases ++ [p] }, errs)
    | none => (bk, rowDiag "purchase")
  | some "sale" =>
    match transform_to_sale row with
    | some s => ({ bk with sales := bk.sales ++ [s] }, errs)
    | none => (bk, rowDiag "sale")
  | some "dividend" =>
    let sym := get_company_symbol_for_dividend cols row (ttc.getD "")
    match transform_to_dividend row sym with
    | some d => ({ bk with dividends := bk.dividends ++ [d] }, errs)
    | none => (bk, rowDiag "dividend")
  | some "tax" =>
    match transform_to_tax row none with
    | some t => ({ bk with taxes := bk.taxes ++ [t] }, errs)
    | none => (bk, rowDiag "tax")
  | some "deposit" =>
    match transform_to_transfer row "deposit" with
    | some t => ({ bk with transfers := bk.transfers ++ [t] }, errs)
    | none => (bk, rowDiag "deposit")
  | some "fee" =>
    match transform_to_transfer row "cash_handling_fee" with
    | some t => ({ bk with transfers := bk.transfers ++ [t] }, errs)
    | none => (bk, rowDiag "fee")
  | _ => (bk, errs)

/-- Fold the row loop over a file's rows with their positional indices. -/
def rowLoop (filename : String) (cols : List String) (ttc : Option String)
    (rows : List (List Cell)) : Buckets × List String :=
  (rows.enum.foldl (fun acc (p : Nat × List Cell) =>
    processRow filename cols ttc p.1 p.2 acc) ({}, []))

/-- Stable per-file sort of each bucket by date (Python list.sort with a date
key). -/
def sortBuckets (bk : Buckets) : Buckets where
  purchases := pySortBy (fun a b => pyStrLe a.date b.date) bk.purchases
  sales := pySortBy (fun a b => pyStrLe a.date b.date) bk.sales
  dividends := pySortBy (fun a b => pyStrLe a.date b.date) bk.dividends
  taxes := pySortBy (fun a b => pyStrLe a.date b.date) bk.taxes
  transfers := pySortBy (fun a b => pyStrLe a.date b.date) bk.transfers

/-- Accumulated per-job parser state. -/
structure ParserState where
  purchases : List Purchase := []
  sales : List Sale := []
  dividends : List Dividend := []
  taxes : List Tax := []
  transfers : List Transfer := []
  errors : List String := []
deriving DecidableEq, Repr

/-- Process one file of a job through load-validation, type-column lookup,
the row loop, per-file sorting, and the chronological merge into the running
accumulation, mirroring PortfolioParser._process_file. -/
def process_file (st : ParserState) (f : JobFile) : ParserState :=
  match f.content with
  | .loadFail err =>
    { st with errors := st.errors ++ ["File " ++ f.name ++ " failed to load: " ++ err] }
  | .loaded t =>
    match validate_dataframe t f.name with
    | (false, verr) =>
      { st with errors := st.errors ++
          ["File " ++ f.name ++ " validation failed: " ++ verr.getD ""] }
    | (true, _) =>
      let ttc := find_transaction_type_column t.cols
      let ttcErrs : List String := match ttc with
        | none => ["File " ++ f.name ++ ": Could not find transaction type column. " ++
            "Available columns: " ++ pyListRepr t.cols]
        | some _ => []
      let pr := rowLoop f.name t.cols ttc t.rows
      let bk := sortBuckets pr.1
      { purchases := merge_transactions Purchase.date st.purchases bk.purchases
        sales := merge_transactions Sale.date st.sales bk.sales
        dividends := merge_transactions Dividend.date st.dividends bk.dividends
        taxes := merge_transactions Tax.date st.taxes bk.taxes
        transfers := merge_transactions Transfer.date st.transfers bk.transfers
        errors := st.errors ++ ttcErrs ++ pr.2 }

/-- parse_job of orchestrator.py: process the job's files in order starting
from the empty accumulation and assemble the unified result.  The external
loader's outcome for each file travels inside the JobFile value. -/
def parse_job (jobId : String) (files : List JobFile) : ParsedJobResult :=
  let st := files.foldl process_file {}
  { jobId := jobId
    purchases := st.purchases
    sales := st.sales
    dividends := st.dividends
    taxes := st.taxes
    transfers := st.transfers
    errors := st.errors }

/-! ### Order theory of the Python string comparison -/

theorem isDigitC_bounds {c : Char} (h : isDigitC c = true) :
    48 ≤ c.toNat ∧ c.toNat ≤ 57 := by
  simp only [isDigitC, Bool.and_eq_true, decide_eq_true_eq] at h
  exact h

theorem char_eq_of_toNat_eq {a b : Char} (h : a.toNat = b.toNat) : a = b := by
  apply Char.ext
  exact UInt32.toNat.inj h

theorem lexLt_irrefl : ∀ l : List Char, lexLt l l = false
  | [] => rfl
  | a :: as => by
    simp only [lexLt, lt_irrefl, if_false]
    exact lexLt_irrefl as

theorem lexLt_asymm : ∀ {a b : List Char}, lexLt a b = true → lexLt b a = false
  | _, [], h => by simp [lexLt] at h
  | [], _ :: _, _ => by simp [lexLt]
  | x :: xs, y :: ys, h => by
    simp only [lexLt] at h ⊢
    rcases Nat.lt_trichotomy x.toNat y.toNat with hlt | heq | hgt
    · simp [hlt, Nat.not_lt_of_lt hlt]
    · simp only [heq, lt_irrefl, if_false] at h ⊢
      exact lexLt_asymm h
    · simp [hgt, Nat.not_lt_of_lt hgt] at h

theorem lexLt_trans : ∀ {a b c : List Char},
    lexLt a b = true → lexLt b c = true → lexLt a c = true
  | _, _, [], _, h2 => by simp [lexLt] at h2
  | _, [], _ :: _, h1, _ => by simp [lexLt] at h1
  | [], _ :: _, _ :: _, _, _ => by simp [lexLt]
  | x :: xs, y :: ys, z :: zs, h1, h2 => by
    simp only [lexLt] at h1 h2 ⊢
    rcases Nat.lt_trichotomy x.toNat y.toNat with hxy | hxy | hxy
    · rcases Nat.lt_trichotomy y.toNat z.toNat with hyz | hyz | hyz
      · simp [Nat.lt_trans hxy hyz]
      · simp [hyz ▸ hxy]
      · simp [hyz, Nat.not_lt_of_lt hyz] at h2
    · rcases Nat.lt_trichotomy y.toNat z.toNat with hyz | hyz | hyz
      · simp [hxy ▸ hyz]
      · have hxz : x.toNat = z.toNat := hxy.trans hyz
        simp only [hxy, lt_irrefl, if_false] at h1
        simp only [hyz, lt_irrefl, if_false] at h2
        simp only [hxz, lt_irrefl, if_false]
        exact lexLt_trans h1 h2
      · simp [hyz, Nat.not_lt_of_lt hyz] at h2
    · simp [hxy, Nat.not_lt_of_lt hxy] at h1

theorem lexLt_conn : ∀ {a b : List Char},
    lexLt a b = false → lexLt b a = false → a = b
  | [], [], _, _ => rfl
  | [], _ :: _, h1, _ => by simp [lexLt] at h1
  | _ :: _, [], _, h2 => by simp [lexLt] at h2
  | x :: xs, y :: ys, h1, h2 => by
    simp only [lexLt] at h1 h2
    rcases Nat.lt_trichotomy x.toNat y.toNat with hxy | hxy | hxy
    · simp [hxy] at h1
    · simp only [hxy, lt_irrefl, if_false] at h1 h2
      rw [char_eq_of_toNat_eq hxy, lexLt_conn h1 h2]
    · simp [hxy, Nat.not_lt_of_lt hxy] at h2

theorem lexLt_total (a b : List Char) :
    lexLt a b = true ∨ lexLt b a = true ∨ a = b := by
  by_cases h1 : lexLt a b = true
  · exact Or.inl h1
  · by_cases h2 : lexLt b a = true
    · exact Or.inr (Or.inl h2)
    · exact Or.inr (Or.inr (lexLt_conn
        (Bool.eq_false_iff.mpr h1) (Bool.eq_false_iff.mpr h2)))

/-! ### Stable insertion sort lemmas -/

theorem orderedInsertB_perm (leB : α → α → Bool) (x : α) :
    ∀ l : List α, (orderedInsertB leB x l).Perm (x :: l)
  | [] => List.Perm.refl _
  | y :: ys => by
    simp only [orderedInsertB]
    split
    · exact List.Perm.refl _
    · exact ((orderedInsertB_perm leB x ys).cons y).trans (List.Perm.swap x y ys)

theorem pySortBy_perm (leB : α → α → Bool) :
    ∀ l : List α, (pySortBy leB l).Perm l
  | [] => List.Perm.refl _
  | x :: xs => by
    simp only [pySortBy]
    exact (orderedInsertB_perm leB x (pySortBy leB xs)).trans
      ((pySortBy_perm leB xs).cons x)

theorem pySortBy_of_pairwise (leB : α → α → Bool) :
    ∀ {l : List α}, l.Pairwise (fun a b => leB a b = true) → pySortBy leB l = l
  | [], _ => rfl
  | x :: xs, h => by
    rw [List.pairwise_cons] at h
    have ih := pySortBy_of_pairwise leB h.2
    show orderedInsertB leB x (pySortBy leB xs) = x :: xs
    rw [ih]
    cases xs with
    | nil => rfl
    | cons y ys =>
      show (if leB x y then x :: y :: ys else y :: orderedInsertB leB x ys) = x :: y :: ys
      rw [if_pos (h.1 y (List.mem_cons_self y ys))]

/-! ### The two-pointer merge loop agrees with the library merge -/

theorem smergeF_eq_merge (le : α → α → Bool) :
    ∀ (n : Nat) (xs ys : List α), xs.length + ys.length ≤ n →
      smergeF le n xs ys = List.merge xs ys le
  | 0, [], [], _ => by simp [smergeF, List.merge]
  | 0, x :: xs, _, h => by simp at h
  | 0, [], y :: ys, h => by simp at h
  | _ + 1, [], ys, _ => by simp [smergeF]
  | _ + 1, x :: xs, [], _ => by simp [smergeF]
  | n + 1, x :: xs, y :: ys, h => by
    simp only [smergeF]
    by_cases hle : le x y = true
    · rw [if_pos hle, List.cons_merge_cons_pos _ _ _ hle, smergeF_eq_merge le n]
      simp only [List.length_cons] at h ⊢
      omega
    · rw [if_neg hle, List.cons_merge_cons_neg _ _ _ (by simp [hle]),
        smergeF_eq_merge le n]
      simp only [List.length_cons] at h ⊢
      omega

theorem sorted_merge_py_eq_merge (dateOf : α → String) (existing nw : List α) :
    sorted_merge_py dateOf existing nw = List.merge existing nw (dateLeB dateOf) :=
  smergeF_eq_merge _ _ _ _ (Nat.le_refl _)

/-! ### Every branch of merge_transactions permutes the concatenation -/

theorem merge_transactions_perm (dateOf : α → String) (existing nw : List α) :
    (merge_transactions dateOf existing nw).Perm (existing ++ nw) := by
  unfold merge_transactions
  by_cases hB : nw.isEmpty
  · rw [if_pos hB]
    rw [List.isEmpty_iff.mp hB, List.append_nil]
  · rw [if_neg hB]
    by_cases hA : existing.isEmpty
    · rw [if_pos hA, List.isEmpty_iff.mp hA, List.nil_append]
    · rw [if_neg hA]
      dsimp only
      split
      · split
        · exact List.perm_append_comm
        · split
          · exact List.Perm.refl _
          · rw [sorted_merge_py_eq_merge]
            exact List.merge_perm_append _
      · exact pySortBy_perm _ _

/-! ### Interleavings -/

/-- An interleave of two lists: a merge of both keeping each list's internal
order (the claim's notion of a permutation-preserving interleave). -/
inductive Interleave : List α → List α → List α → Prop where
  | nil : Interleave [] [] []
  | left {xs ys zs : List α} (x : α) :
      Interleave xs ys zs → Interleave (x :: xs) ys (x :: zs)
  | right {xs ys zs : List α} (y : α) :
      Interleave xs ys zs → Interleave xs (y :: ys) (y :: zs)

theorem interleave_nil_left : ∀ ys : List α, Interleave [] ys ys
  | [] => .nil
  | y :: ys => .right y (interleave_nil_left ys)

theorem interleave_nil_right : ∀ xs : List α, Interleave xs [] xs
  | [] => .nil
  | x :: xs => .left x (interleave_nil_right xs)

theorem interleave_append_right : ∀ xs ys : List α, Interleave xs ys (xs ++ ys)
  | [], ys => by simpa using interleave_nil_left ys
  | x :: xs, ys => .left x (interleave_append_right xs ys)

theorem interleave_append_left : ∀ xs ys : List α, Interleave xs ys (ys ++ xs)
  | xs, [] => by simpa using interleave_nil_right xs
  | xs, y :: ys => .right y (interleave_append_left xs ys)

theorem interleave_merge (le : α → α → Bool) :
    ∀ xs ys : List α, Interleave xs ys (List.merge xs ys le)
  | [], ys => by rw [List.nil_merge]; exact interleave_nil_left ys
  | x :: xs, [] => by rw [List.merge_right]; exact interleave_nil_right _
  | x :: xs, y :: ys => by
    by_cases h : le x y = true
    · rw [List.cons_merge_cons_pos _ _ _ h]
      exact .left x (interleave_merge le xs (y :: ys))
    · rw [List.cons_merge_cons_neg _ _ _ (by simp [h])]
      exact .right y (interleave_merge le (x :: xs) ys)
termination_by xs ys => xs.length + ys.length
decreasing_by all_goals simp +arith

/-! ### Directed merges -/

theorem merge_of_gt (le : α → α → Bool) :
    ∀ (xs ys : List α), (∀ x ∈ xs, ∀ y ∈ ys, le x y = false) →
      List.merge xs ys le = ys ++ xs
  | [], ys, _ => by simp [List.nil_merge]
  | _ :: _, [], _ => by simp [List.merge_right]
  | x :: xs, y :: ys, h => by
    have hxy : le x y = false :=
      h x (List.mem_cons_self x xs) y (List.mem_cons_self y ys)
    rw [List.cons_merge_cons_neg _ _ _ (by simp [hxy]),
      merge_of_gt le (x :: xs) ys
        (fun a ha b hb => h a ha b (List.mem_cons_of_mem _ hb))]
    simp

/-! ### Sortedness of the merge, with order hypotheses restricted to the
participating elements (the date comparison is only well-behaved on
canonically dated records, so the unrestricted library lemma does not
apply) -/

theorem merge_pairwise_restricted (le : α → α → Bool) (P : α → Prop)
    (htr : ∀ a b c, P a → P b → P c → le a b = true → le b c = true → le a c = true)
    (hto : ∀ a b, P a → P b → le a b = true ∨ le b a = true) :
    ∀ (xs ys : List α), (∀ a ∈ xs, P a) → (∀ b ∈ ys, P b) →
      xs.Pairwise (fun a b => le a b = true) →
      ys.Pairwise (fun a b => le a b = true) →
      (List.merge xs ys le).Pairwise (fun a b => le a b = true)
  | [], ys, _, _, _, hpy => by rw [List.nil_merge]; exact hpy
  | _ :: _, [], _, _, hpx, _ => by rw [List.merge_right]; exact hpx
  | x :: xs, y :: ys, hPx, hPy, hpx, hpy => by
    by_cases h : le x y = true
    · rw [List.cons_merge_cons_pos _ _ _ h]
      refine List.Pairwise.cons ?_
        (merge_pairwise_restricted le P htr hto xs (y :: ys)
          (fun a ha => hPx a (List.mem_cons_of_mem _ ha)) hPy
          (List.pairwise_cons.mp hpx).2 hpy)
      intro z hz
      rcases List.mem_merge.mp hz with hz | hz
      · exact List.rel_of_pairwise_cons hpx hz
      · rcases List.mem_cons.mp hz with rfl | hz
        · exact h
        · exact htr x y z (hPx x (List.mem_cons_self x xs))
            (hPy y (List.mem_cons_self y ys))
            (hPy z (List.mem_cons_of_mem _ hz)) h
            (List.rel_of_pairwise_cons hpy hz)
    · have hyx : le y x = true :=
        (hto x y (hPx x (List.mem_cons_self x xs))
          (hPy y (List.mem_cons_self y ys))).resolve_left h
      rw [List.cons_merge_cons_neg _ _ _ (by simp [h])]
      refine List.Pairwise.cons ?_
        (merge_pairwise_restricted le P htr hto (x :: xs) ys hPx
          (fun b hb => hPy b (List.mem_cons_of_mem _ hb)) hpx
          (List.pairwise_cons.mp hpy).2)
      intro z hz
      rcases List.mem_merge.mp hz with hz | hz
      · rcases List.mem_cons.mp hz with rfl | hz
        · exact hyx
        · exact htr y x z (hPy y (List.mem_cons_self y ys))
            (hPx x (List.mem_cons_self x xs))
            (hPx z (List.mem_cons_of_mem _ hz)) hyx
            (List.rel_of_pairwise_cons hpx hz)
      · exact List.rel_of_pairwise_cons hpy hz
termination_by xs ys => xs.length + ys.length
decreasing_by all_goals simp +arith

/-! ### Associativity of the stable two-pointer merge, again with order
hypotheses restricted to the participating elements -/

theorem merge_assoc_restricted (le : α → α → Bool) (P : α → Prop)
    (htr : ∀ a b c, P a → P b → P c → le a b = true → le b c = true → le a c = true)
    (hto : ∀ a b, P a → P b → le a b = true ∨ le b a = true) :
    ∀ (A B C : List α), (∀ a ∈ A, P a) → (∀ b ∈ B, P b) → (∀ c ∈ C, P c) →
      List.merge (List.merge A B le) C le = List.merge A (List.merge B C le) le
  | [], B, C, _, _, _ => by simp [List.nil_merge]
  | A, [], C, _, _, _ => by simp [List.nil_merge, List.merge_right]
  | A, B, [], _, _, _ => by simp [List.merge_right]
  | a :: as, b :: bs, c :: cs, hA, hB, hC => by
    have hPa := hA a (List.mem_cons_self a as)
    have hPb := hB b (List.mem_cons_self b bs)
    have hPc := hC c (List.mem_cons_self c cs)
    have hA' := fun x hx => hA x (List.mem_cons_of_mem _ hx)
    have hB' := fun x hx => hB x (List.mem_cons_of_mem _ hx)
    have hC' := fun x hx => hC x (List.mem_cons_of_mem _ hx)
    by_cases hab : le a b = true
    · rw [List.cons_merge_cons_pos _ _ _ hab]
      by_cases hbc : le b c = true
      · have hac : le a c = true := htr a b c hPa hPb hPc hab hbc
        rw [List.cons_merge_cons_pos _ _ _ hac,
          merge_assoc_restricted le P htr hto as (b :: bs) (c :: cs) hA' hB hC,
          List.cons_merge_cons_pos _ _ _ hbc,
          List.cons_merge_cons_pos _ _ _ hab]
      · by_cases hac : le a c = true
        · rw [List.cons_merge_cons_pos _ _ _ hac,
            merge_assoc_restricted le P htr hto as (b :: bs) (c :: cs) hA' hB hC,
            List.cons_merge_cons_neg _ _ _ (by simp [hbc]),
            List.cons_merge_cons_pos _ _ _ hac]
        · rw [List.cons_merge_cons_neg _ _ _ (by simp [hac]),
            show (a :: List.merge as (b :: bs) le) = List.merge (a :: as) (b :: bs) le
              from (List.cons_merge_cons_pos _ _ _ hab).symm,
            merge_assoc_restricted le P htr hto (a :: as) (b :: bs) cs hA hB hC',
            List.cons_merge_cons_neg _ _ _ (by simp [hbc]),
            List.cons_merge_cons_neg _ _ _ (by simp [hac])]
    · rw [List.cons_merge_cons_neg _ _ _ (by simp [hab])]
      by_cases hbc : le b c = true
      · rw [List.cons_merge_cons_pos _ _ _ hbc,
          merge_assoc_restricted le P htr hto (a :: as) bs (c :: cs) hA hB' hC,
          List.cons_merge_cons_pos _ _ _ hbc,
          List.cons_merge_cons_neg _ _ _ (by simp [hab])]
      · have hac : le a c = false := by
          by_contra hcon
          rw [Bool.not_eq_false] at hcon
          have hcb : le c b = true := (hto b c hPb hPc).resolve_left hbc
          exact hab (htr a c b hPa hPc hPb hcon hcb)
        rw [List.cons_merge_cons_neg _ _ _ (by simp [hbc]),
          show (b :: List.merge (a :: as) bs le) = List.merge (a :: as) (b :: bs) le
            from (List.cons_merge_cons_neg _ _ _ (by simp [hab])).symm,
          merge_assoc_restricted le P htr hto (a :: as) (b :: bs) cs hA hB hC',
          List.cons_merge_cons_neg _ _ _ (by simp [hbc]),
          List.cons_merge_cons_neg _ _ _ (by simp [hac])]
termination_by A B C => A.length + B.length + C.length
decreasing_by all_goals simp +arith

/-! ### Canonical dates: shape plus calendar validity -/

/-- A canonical date string: it has the exact four-two-two digit shape of the
fast-path regex and parses under the dash pattern (so it denotes a real
calendar date). -/
def canonicalDate (s : String) : Bool :=
  isShape s.data && (strptimeDate '-' .ymd s.data).isSome

theorem char_eq_iff_toNat {a b : Char} : a = b ↔ a.toNat = b.toNat :=
  ⟨fun h => h ▸ rfl, char_eq_of_toNat_eq⟩

theorem lexLt_cons_iff {x y : Char} {u v : List Char} :
    lexLt (x :: u) (y :: v) = true ↔
      (x.toNat < y.toNat ∨ (x.toNat = y.toNat ∧ lexLt u v = true)) := by
  simp only [lexLt]
  rcases Nat.lt_trichotomy x.toNat y.toNat with h | h | h
  · simp [h]
  · simp [h, lt_irrefl]
  · simp [h, Nat.not_lt_of_lt h]
    omega

theorem digit_beq_dash {c : Char} (h : isDigitC c = true) : (c == '-') = false := by
  have hb := isDigitC_bounds h
  simp only [beq_eq_false_iff_ne, ne_eq]
  intro he
  rw [he] at hb
  exact absurd hb (by decide)

theorem digit_beq_slash {c : Char} (h : isDigitC c = true) : (c == '/') = false := by
  have hb := isDigitC_bounds h
  simp only [beq_eq_false_iff_ne, ne_eq]
  intro he
  rw [he] at hb
  exact absurd hb (by decide)

theorem splitSep_single (sep : Char) :
    ∀ u : List Char, (∀ c ∈ u, (c == sep) = false) → splitSep sep u = [u]
  | [], _ => rfl
  | c :: u, h => by
    have ih := splitSep_single sep u (fun x hx => h x (List.mem_cons_of_mem _ hx))
    have hc := h c (List.mem_cons_self c u)
    show (if c == sep then [] :: splitSep sep u
      else (c :: (splitSep sep u).headD []) :: (splitSep sep u).tail) = [c :: u]
    rw [hc, ih]
    simp

theorem splitSep_append (sep : Char) :
    ∀ (u v : List Char), (∀ c ∈ u, (c == sep) = false) →
      splitSep sep (u ++ sep :: v) = u :: splitSep sep v
  | [], v, _ => by
    show (if sep == sep then [] :: splitSep sep v
      else (sep :: (splitSep sep v).headD []) :: (splitSep sep v).tail) = [] :: splitSep sep v
    simp
  | c :: u, v, h => by
    have ih := splitSep_append sep u v (fun x hx => h x (List.mem_cons_of_mem _ hx))
    have hc := h c (List.mem_cons_self c u)
    show (if c == sep then [] :: splitSep sep (u ++ sep :: v)
      else (c :: (splitSep sep (u ++ sep :: v)).headD []) ::
        (splitSep sep (u ++ sep :: v)).tail) = (c :: u) :: splitSep sep v
    rw [hc, ih]
    simp

theorem isShape_elim : ∀ {l : List Char}, isShape l = true →
    ∃ y1 y2 y3 y4 m1 m2 d1 d2,
      l = [y1, y2, y3, y4, '-', m1, m2, '-', d1, d2] ∧
      isDigitC y1 = true ∧ isDigitC y2 = true ∧ isDigitC y3 = true ∧
      isDigitC y4 = true ∧ isDigitC m1 = true ∧ isDigitC m2 = true ∧
      isDigitC d1 = true ∧ isDigitC d2 = true := by
  intro l h
  match l with
  | [a, b, c, d, e1, e, f, e2, g, i] =>
    simp only [isShape, Bool.and_eq_true, beq_iff_eq] at h
    obtain ⟨⟨⟨⟨⟨⟨⟨⟨⟨h1, h2⟩, h3⟩, h4⟩, h5⟩, h6⟩, h7⟩, h8⟩, h9⟩, h10⟩ := h
    subst h5
    subst h8
    exact ⟨a, b, c, d, e, f, g, i, rfl, h1, h2, h3, h4, h6, h7, h9, h10⟩
  | [] | [_] | [_, _] | [_, _, _] | [_, _, _, _] | [_, _, _, _, _]
  | [_, _, _, _, _, _] | [_, _, _, _, _, _, _] | [_, _, _, _, _, _, _, _]
  | [_, _, _, _, _, _, _, _, _] => simp [isShape] at h
  | _ :: _ :: _ :: _ :: _ :: _ :: _ :: _ :: _ :: _ :: _ :: _ => simp [isShape] at h

theorem canonical_elim {s : String} (h : canonicalDate s = true) :
    ∃ y1 y2 y3 y4 m1 m2 d1 d2,
      s.data = [y1, y2, y3, y4, '-', m1, m2, '-', d1, d2] ∧
      (isDigitC y1 = true ∧ isDigitC y2 = true ∧ isDigitC y3 = true ∧
       isDigitC y4 = true ∧ isDigitC m1 = true ∧ isDigitC m2 = true ∧
       isDigitC d1 = true ∧ isDigitC d2 = true) ∧
      strptimeDate '-' Ord3.ymd s.data =
        some (natOfDigits [y1, y2, y3, y4], natOfDigits [m1, m2],
          natOfDigits [d1, d2]) := by
  simp only [canonicalDate, Bool.and_eq_true] at h
  obtain ⟨hsh, hps⟩ := h
  obtain ⟨y1, y2, y3, y4, m1, m2, d1, d2, hl, h1, h2, h3, h4, h5, h6, h7, h8⟩ :=
    isShape_elim hsh
  refine ⟨y1, y2, y3, y4, m1, m2, d1, d2, hl, ⟨h1, h2, h3, h4, h5, h6, h7, h8⟩, ?_⟩
  have hY : ∀ c ∈ [y1, y2, y3, y4], (c == '-') = false := by
    intro c hc
    simp only [List.mem_cons, List.not_mem_nil, or_false] at hc
    rcases hc with rfl | rfl | rfl | rfl
    · exact digit_beq_dash h1
    · exact digit_beq_dash h2
    · exact digit_beq_dash h3
    · exact digit_beq_dash h4
  have hM2 : ∀ c ∈ [m1, m2], (c == '-') = false := by
    intro c hc
    simp only [List.mem_cons, List.not_mem_nil, or_false] at hc
    rcases hc with rfl | rfl
    · exact digit_beq_dash h5
    · exact digit_beq_dash h6
  have hD2 : ∀ c ∈ [d1, d2], (c == '-') = false := by
    intro c hc
    simp only [List.mem_cons, List.not_mem_nil, or_false] at hc
    rcases hc with rfl | rfl
    · exact digit_beq_dash h7
    · exact digit_beq_dash h8
  have hsplit : splitSep '-' s.data = [[y1, y2, y3, y4], [m1, m2], [d1, d2]] := by
    rw [hl,
      show [y1, y2, y3, y4, '-', m1, m2, '-', d1, d2] =
        [y1, y2, y3, y4] ++ '-' :: ([m1, m2] ++ '-' :: [d1, d2]) from rfl,
      splitSep_append '-' _ _ hY, splitSep_append '-' _ _ hM2,
      splitSep_single '-' _ hD2]
  have h4y : parse4Year [y1, y2, y3, y4] = some (natOfDigits [y1, y2, y3, y4]) := by
    simp [parse4Year, h1, h2, h3, h4]
  rw [strptimeDate, hsplit] at hps ⊢
  simp only [h4y] at hps ⊢
  by_cases hM : 1 ≤ natOfDigits [m1, m2] ∧ natOfDigits [m1, m2] ≤ 12
  · have hm : parse2Field 1 12 [m1, m2] = some (natOfDigits [m1, m2]) := by
      simp [parse2Field, h5, h6, hM]
    by_cases hD : 1 ≤ natOfDigits [d1, d2] ∧ natOfDigits [d1, d2] ≤ 31
    · have hd : parse2Field 1 31 [d1, d2] = some (natOfDigits [d1, d2]) := by
        simp [parse2Field, h7, h8, hD]
      simp only [hm, hd] at hps ⊢
      by_cases hV : 1 ≤ natOfDigits [y1, y2, y3, y4] ∧
          natOfDigits [d1, d2] ≤ daysInMonth (natOfDigits [y1, y2, y3, y4]) (natOfDigits [m1, m2])
      · simp [hV]
      · simp [hV] at hps
    · have hd : parse2Field 1 31 [d1, d2] = none := by
        simp [parse2Field, h7, h8, hD]
      simp [hm, hd] at hps
  · have hm : parse2Field 1 12 [m1, m2] = none := by
      simp [parse2Field, h5, h6, hM]
    simp [hm] at hps

theorem nat4_lt_iff {p q r s p' q' r' s' : Char}
    (h1 : isDigitC p = true) (h2 : isDigitC q = true) (h3 : isDigitC r = true)
    (h4 : isDigitC s = true) (h5 : isDigitC p' = true) (h6 : isDigitC q' = true)
    (h7 : isDigitC r' = true) (h8 : isDigitC s' = true) :
    natOfDigits [p, q, r, s] < natOfDigits [p', q', r', s'] ↔
      (p.toNat < p'.toNat ∨ (p.toNat = p'.toNat ∧
        (q.toNat < q'.toNat ∨ (q.toNat = q'.toNat ∧
          (r.toNat < r'.toNat ∨ (r.toNat = r'.toNat ∧ s.toNat < s'.toNat)))))) := by
  have A1 := isDigitC_bounds h1; have A2 := isDigitC_bounds h2
  have A3 := isDigitC_bounds h3; have A4 := isDigitC_bounds h4
  have A5 := isDigitC_bounds h5; have A6 := isDigitC_bounds h6
  have A7 := isDigitC_bounds h7; have A8 := isDigitC_bounds h8
  simp only [natOfDigits, List.foldl]
  omega

theorem nat4_eq_iff {p q r s p' q' r' s' : Char}
    (h1 : isDigitC p = true) (h2 : isDigitC q = true) (h3 : isDigitC r = true)
    (h4 : isDigitC s = true) (h5 : isDigitC p' = true) (h6 : isDigitC q' = true)
    (h7 : isDigitC r' = true) (h8 : isDigitC s' = true) :
    natOfDigits [p, q, r, s] = natOfDigits [p', q', r', s'] ↔
      (p.toNat = p'.toNat ∧ q.toNat = q'.toNat ∧ r.toNat = r'.toNat ∧
        s.toNat = s'.toNat) := by
  have A1 := isDigitC_bounds h1; have A2 := isDigitC_bounds h2
  have A3 := isDigitC_bounds h3; have A4 := isDigitC_bounds h4
  have A5 := isDigitC_bounds h5; have A6 := isDigitC_bounds h6
  have A7 := isDigitC_bounds h7; have A8 := isDigitC_bounds h8
  simp only [natOfDigits, List.foldl]
  omega

theorem nat2_lt_iff {p q p' q' : Char}
    (h1 : isDigitC p = true) (h2 : isDigitC q = true)
    (h5 : isDigitC p' = true) (h6 : isDigitC q' = true) :
    natOfDigits [p, q] < natOfDigits [p', q'] ↔
      (p.toNat < p'.toNat ∨ (p.toNat = p'.toNat ∧ q.toNat < q'.toNat)) := by
  have A1 := isDigitC_bounds h1; have A2 := isDigitC_bounds h2
  have A5 := isDigitC_bounds h5; have A6 := isDigitC_bounds h6
  simp only [natOfDigits, List.foldl]
  omega

theorem nat2_eq_iff {p q p' q' : Char}
    (h1 : isDigitC p = true) (h2 : isDigitC q = true)
    (h5 : isDigitC p' = true) (h6 : isDigitC q' = true) :
    natOfDigits [p, q] = natOfDigits [p', q'] ↔
      (p.toNat = p'.toNat ∧ q.toNat = q'.toNat) := by
  have A1 := isDigitC_bounds h1; have A2 := isDigitC_bounds h2
  have A5 := isDigitC_bounds h5; have A6 := isDigitC_bounds h6
  simp only [natOfDigits, List.foldl]
  omega

/-- Arithmetic core of the bridge: on four-two-two digit shapes the datetime
comparison agrees with code-point lexicographic comparison. -/
theorem shape_lex_lt {y1 y2 y3 y4 m1 m2 d1 d2 z1 z2 z3 z4 n1 n2 e1 e2 : Char}
    (a1 : isDigitC y1 = true) (a2 : isDigitC y2 = true) (a3 : isDigitC y3 = true)
    (a4 : isDigitC y4 = true) (a5 : isDigitC m1 = true) (a6 : isDigitC m2 = true)
    (a7 : isDigitC d1 = true) (a8 : isDigitC d2 = true)
    (b1 : isDigitC z1 = true) (b2 : isDigitC z2 = true) (b3 : isDigitC z3 = true)
    (b4 : isDigitC z4 = true) (b5 : isDigitC n1 = true) (b6 : isDigitC n2 = true)
    (b7 : isDigitC e1 = true) (b8 : isDigitC e2 = true) :
    ymdLtB
      (natOfDigits [y1, y2, y3, y4], natOfDigits [m1, m2], natOfDigits [d1, d2])
      (natOfDigits [z1, z2, z3, z4], natOfDigits [n1, n2], natOfDigits [e1, e2]) = true ↔
      lexLt [y1, y2, y3, y4, '-', m1, m2, '-', d1, d2]
        [z1, z2, z3, z4, '-', n1, n2, '-', e1, e2] = true := by
  simp only [ymdLtB, lexLt_cons_iff, show lexLt ([] : List Char) [] = false from rfl,
    Bool.or_eq_true, Bool.and_eq_true, decide_eq_true_eq, Bool.false_eq_true,
    and_false, or_false,
    nat4_lt_iff a1 a2 a3 a4 b1 b2 b3 b4, nat4_eq_iff a1 a2 a3 a4 b1 b2 b3 b4,
    nat2_lt_iff a5 a6 b5 b6, nat2_eq_iff a5 a6 b5 b6,
    nat2_lt_iff a7 a8 b7 b8, lt_self_iff_false, false_or, true_and]
  omega

set_option maxHeartbeats 1000000 in
/-- Arithmetic core of the bridge, equality part: two shapes compare equal
under the datetime comparison exactly when they are the same characters. -/
theorem shape_lex_eq {y1 y2 y3 y4 m1 m2 d1 d2 z1 z2 z3 z4 n1 n2 e1 e2 : Char}
    (a1 : isDigitC y1 = true) (a2 : isDigitC y2 = true) (a3 : isDigitC y3 = true)
    (a4 : isDigitC y4 = true) (a5 : isDigitC m1 = true) (a6 : isDigitC m2 = true)
    (a7 : isDigitC d1 = true) (a8 : isDigitC d2 = true)
    (b1 : isDigitC z1 = true) (b2 : isDigitC z2 = true) (b3 : isDigitC z3 = true)
    (b4 : isDigitC z4 = true) (b5 : isDigitC n1 = true) (b6 : isDigitC n2 = true)
    (b7 : isDigitC e1 = true) (b8 : isDigitC e2 = true) :
    (ymdLtB
      (natOfDigits [y1, y2, y3, y4], natOfDigits [m1, m2], natOfDigits [d1, d2])
      (natOfDigits [z1, z2, z3, z4], natOfDigits [n1, n2], natOfDigits [e1, e2]) = false ∧
     ymdLtB
      (natOfDigits [z1, z2, z3, z4], natOfDigits [n1, n2], natOfDigits [e1, e2])
      (natOfDigits [y1, y2, y3, y4], natOfDigits [m1, m2], natOfDigits [d1, d2]) = false) ↔
      ([y1, y2, y3, y4, '-', m1, m2, '-', d1, d2] : List Char) =
        [z1, z2, z3, z4, '-', n1, n2, '-', e1, e2] := by
  simp only [Bool.eq_false_iff, ne_eq]
  simp only [ymdLtB, Bool.or_eq_true, Bool.and_eq_true,
    decide_eq_true_eq, List.cons.injEq, char_eq_iff_toNat, and_true,
    nat4_lt_iff a1 a2 a3 a4 b1 b2 b3 b4, nat4_eq_iff a1 a2 a3 a4 b1 b2 b3 b4,
    nat4_lt_iff b1 b2 b3 b4 a1 a2 a3 a4, nat4_eq_iff b1 b2 b3 b4 a1 a2 a3 a4,
    nat2_lt_iff a5 a6 b5 b6, nat2_eq_iff a5 a6 b5 b6,
    nat2_lt_iff b5 b6 a5 a6, nat2_eq_iff b5 b6 a5 a6,
    nat2_lt_iff a7 a8 b7 b8, nat2_lt_iff b7 b8 a7 a8,
    lt_self_iff_false, false_or, true_and]
  omega

theorem canonical_compare {s t : String}
    (hs : canonicalDate s = true) (ht : canonicalDate t = true) :
    (compare_dates s t < 0 ↔ pyStrLt s t = true) ∧
    (compare_dates s t = 0 ↔ s = t) := by
  obtain ⟨y1, y2, y3, y4, m1, m2, d1, d2, hsd, ⟨a1, a2, a3, a4, a5, a6, a7, a8⟩, hps⟩ :=
    canonical_elim hs
  obtain ⟨z1, z2, z3, z4, n1, n2, e1, e2, htd, ⟨b1, b2, b3, b4, b5, b6, b7, b8⟩, hpt⟩ :=
    canonical_elim ht
  have hstring : (s = t) ↔ s.data = t.data := by
    constructor
    · intro h; rw [h]
    · intro h
      have h2 : String.mk s.data = String.mk t.data := by rw [h]
      simpa using h2
  have key1 := shape_lex_lt a1 a2 a3 a4 a5 a6 a7 a8 b1 b2 b3 b4 b5 b6 b7 b8
  have key2 := shape_lex_eq a1 a2 a3 a4 a5 a6 a7 a8 b1 b2 b3 b4 b5 b6 b7 b8
  rw [← hsd, ← htd] at key1 key2
  unfold compare_dates
  rw [hps, hpt]
  simp only [pyStrLt]
  constructor
  · rw [← key1]
    by_cases h12 : ymdLtB
        (natOfDigits [y1, y2, y3, y4], natOfDigits [m1, m2], natOfDigits [d1, d2])
        (natOfDigits [z1, z2, z3, z4], natOfDigits [n1, n2], natOfDigits [e1, e2]) = true
    · simp [h12]
    · by_cases h21 : ymdLtB
          (natOfDigits [z1, z2, z3, z4], natOfDigits [n1, n2], natOfDigits [e1, e2])
          (natOfDigits [y1, y2, y3, y4], natOfDigits [m1, m2], natOfDigits [d1, d2]) = true
      · simp [h12, h21]
      · simp [h12, h21]
  · rw [hstring, ← key2]
    by_cases h12 : ymdLtB
        (natOfDigits [y1, y2, y3, y4], natOfDigits [m1, m2], natOfDigits [d1, d2])
        (natOfDigits [z1, z2, z3, z4], natOfDigits [n1, n2], natOfDigits [e1, e2]) = true
    · simp [h12]
    · by_cases h21 : ymdLtB
          (natOfDigits [z1, z2, z3, z4], natOfDigits [n1, n2], natOfDigits [e1, e2])
          (natOfDigits [y1, y2, y3, y4], natOfDigits [m1, m2], natOfDigits [d1, d2]) = true
      · simp [h12, h21]
      · simp [h12, h21]

/-! ### Consequences of the bridge -/

theorem string_data_eq {s t : String} (h : s.data = t.data) : s = t := by
  have h2 : String.mk s.data = String.mk t.data := by rw [h]
  simpa using h2

theorem lexLt_lt_of_le_of_lt {a b c : List Char}
    (h1 : lexLt a b = false) (h2 : lexLt a c = true) : lexLt b c = true := by
  rcases lexLt_total b c with h | h | h
  · exact h
  · exact absurd (lexLt_trans h2 h) (by simp [h1])
  · rw [← h] at h2
    exact absurd h2 (by simp [h1])

theorem lexLt_lt_of_lt_of_le {a b c : List Char}
    (h1 : lexLt a b = true) (h2 : lexLt c b = false) : lexLt a c = true := by
  rcases lexLt_total a c with h | h | h
  · exact h
  · exact absurd (lexLt_trans h h1) (by simp [h2])
  · rw [h] at h1
    exact absurd h1 (by simp [h2])

theorem compare_dates_mem (d1 d2 : String) :
    compare_dates d1 d2 = -1 ∨ compare_dates d1 d2 = 0 ∨ compare_dates d1 d2 = 1 := by
  unfold compare_dates
  rcases strptimeDate '-' .ymd d1.data with _ | t1
  · simp
  · rcases strptimeDate '-' .ymd d2.data with _ | t2
    · simp
    · by_cases hb1 : ymdLtB t1 t2 = true
      · simp [hb1]
      · by_cases hb2 : ymdLtB t2 t1 = true
        · simp [hb1, hb2]
        · simp [hb1, hb2]

theorem canonical_le_iff {s t : String}
    (hs : canonicalDate s = true) (ht : canonicalDate t = true) :
    compare_dates s t ≤ 0 ↔ lexLt t.data s.data = false := by
  obtain ⟨hlt, heq⟩ := canonical_compare hs ht
  constructor
  · intro h
    have : compare_dates s t < 0 ∨ compare_dates s t = 0 := by
      rcases compare_dates_mem s t with h1 | h1 | h1 <;> omega
    rcases this with h1 | h1
    · exact lexLt_asymm (hlt.mp h1)
    · rw [heq.mp h1]
      exact lexLt_irrefl _
  · intro h
    rcases lexLt_total s.data t.data with g | g | g
    · have := hlt.mpr (by simpa [pyStrLt] using g)
      omega
    · exact absurd g (by simp [h])
    · rw [heq.mpr (string_data_eq g)]

theorem canonical_lt_iff {s t : String}
    (hs : canonicalDate s = true) (ht : canonicalDate t = true) :
    0 < compare_dates s t ↔ lexLt t.data s.data = true := by
  rw [show (0 < compare_dates s t ↔ ¬ compare_dates s t ≤ 0) from by omega]
  rw [canonical_le_iff hs ht]
  simp

/-! ### The merger takes exactly the two-pointer merge path on canonically
dated sorted inputs -/

theorem dateLeB_iff {dateOf : α → String} {a b : α}
    (ha : canonicalDate (dateOf a) = true) (hb : canonicalDate (dateOf b) = true) :
    dateLeB dateOf a b = true ↔ lexLt (dateOf b).data (dateOf a).data = false := by
  rw [dateLeB, decide_eq_true_eq]
  exact canonical_le_iff ha hb

theorem dateLeB_trans_canonical (dateOf : α → String) (a b c : α)
    (ha : canonicalDate (dateOf a) = true) (hb : canonicalDate (dateOf b) = true)
    (hc : canonicalDate (dateOf c) = true)
    (h1 : dateLeB dateOf a b = true) (h2 : dateLeB dateOf b c = true) :
    dateLeB dateOf a c = true := by
  rw [dateLeB_iff ha hb] at h1
  rw [dateLeB_iff hb hc] at h2
  rw [dateLeB_iff ha hc]
  by_cases hlt : lexLt (dateOf c).data (dateOf a).data = true
  · exact absurd (lexLt_lt_of_lt_of_le hlt h1) (by simp [h2])
  · simpa using hlt

theorem dateLeB_total_canonical (dateOf : α → String) (a b : α)
    (ha : canonicalDate (dateOf a) = true) (hb : canonicalDate (dateOf b) = true) :
    dateLeB dateOf a b = true ∨ dateLeB dateOf b a = true := by
  rw [dateLeB_iff ha hb, dateLeB_iff hb ha]
  by_cases h : lexLt (dateOf b).data (dateOf a).data = true
  · exact Or.inr (lexLt_asymm h)
  · exact Or.inl (by simpa using h)

theorem pairwise_head_rel {r : α → α → Prop} (hrefl : ∀ a, r a a) {a : α} {l : List α}
    (h : List.Pairwise r (a :: l)) : ∀ x ∈ a :: l, r a x := by
  intro x hx
  rcases List.mem_cons.mp hx with rfl | hx
  · exact hrefl x
  · exact List.rel_of_pairwise_cons h hx

theorem pairwise_getLast_rel {r : α → α → Prop} (hrefl : ∀ a, r a a) :
    ∀ {l : List α} (h : List.Pairwise r l) (hne : l ≠ []) (x : α), x ∈ l →
      r x (l.getLast hne)
  | [a], _, _, x, hx => by
    simp only [List.mem_singleton] at hx
    subst hx
    exact hrefl x
  | a :: b :: l, h, hne, x, hx => by
    rw [List.getLast_cons (by simp)]
    rcases List.mem_cons.mp hx with rfl | hx
    · exact List.rel_of_pairwise_cons h (List.getLast_mem _)
    · exact pairwise_getLast_rel hrefl (List.pairwise_cons.mp h).2 (by simp) x hx

theorem pyStrLe_iff {x y : String} :
    pyStrLe x y = true ↔ lexLt y.data x.data = false := by
  simp [pyStrLe]

theorem pairwise_head_rel' {r : α → α → Prop} (hrefl : ∀ a, r a a)
    {l : List α} (h : List.Pairwise r l) (hne : l ≠ []) :
    ∀ x ∈ l, r (l.head hne) x := by
  cases l with
  | nil => exact absurd rfl hne
  | cons a l => exact pairwise_head_rel hrefl h

theorem merge_transactions_eq_merge (dateOf : α → String) (A B : List α)
    (hA : ∀ a ∈ A, canonicalDate (dateOf a) = true)
    (hB : ∀ b ∈ B, canonicalDate (dateOf b) = true)
    (sA : A.Pairwise (fun a b => dateLeB dateOf a b = true))
    (sB : B.Pairwise (fun a b => dateLeB dateOf a b = true)) :
    merge_transactions dateOf A B = List.merge A B (dateLeB dateOf) := by
  unfold merge_transactions
  by_cases hBe : B.isEmpty
  · rw [if_pos hBe, List.isEmpty_iff.mp hBe, List.merge_right]
  · rw [if_neg hBe]
    by_cases hAe : A.isEmpty
    · rw [if_pos hAe, List.isEmpty_iff.mp hAe, List.nil_merge]
    · rw [if_neg hAe]
      dsimp only
      have hAne : A.map dateOf ≠ [] := by
        simp only [ne_eq, List.map_eq_nil_iff]
        simpa [List.isEmpty_iff] using hAe
      have hBne : B.map dateOf ≠ [] := by
        simp only [ne_eq, List.map_eq_nil_iff]
        simpa [List.isEmpty_iff] using hBe
      have hcanA : ∀ x ∈ A.map dateOf, canonicalDate x = true := by
        intro x hx
        obtain ⟨a, ha, rfl⟩ := List.mem_map.mp hx
        exact hA a ha
      have hcanB : ∀ x ∈ B.map dateOf, canonicalDate x = true := by
        intro x hx
        obtain ⟨b, hb, rfl⟩ := List.mem_map.mp hx
        exact hB b hb
      have hrefl : ∀ x : String, pyStrLe x x = true := by
        intro x
        rw [pyStrLe_iff]
        exact lexLt_irrefl _
      have sA' : (A.map dateOf).Pairwise (fun x y => pyStrLe x y = true) := by
        rw [List.pairwise_map]
        refine sA.imp_of_mem ?_
        intro a b ha hb hr
        rw [pyStrLe_iff]
        exact (dateLeB_iff (hA a ha) (hA b hb)).mp hr
      have sB' : (B.map dateOf).Pairwise (fun x y => pyStrLe x y = true) := by
        rw [List.pairwise_map]
        refine sB.imp_of_mem ?_
        intro a b ha hb hr
        rw [pyStrLe_iff]
        exact (dateLeB_iff (hB a ha) (hB b hb)).mp hr
      have hbA : get_date_boundaries (A.map dateOf) =
          (some ((A.map dateOf).head hAne), some ((A.map dateOf).getLast hAne)) := by
        unfold get_date_boundaries
        rw [if_neg (by simpa [List.isEmpty_iff] using hAne),
          pySortBy_of_pairwise _ sA']
        dsimp only
        rw [List.head?_eq_head hAne, List.getLast?_eq_getLast _ hAne]
      have hbB : get_date_boundaries (B.map dateOf) =
          (some ((B.map dateOf).head hBne), some ((B.map dateOf).getLast hBne)) := by
        unfold get_date_boundaries
        rw [if_neg (by simpa [List.isEmpty_iff] using hBne),
          pySortBy_of_pairwise _ sB']
        dsimp only
        rw [List.head?_eq_head hBne, List.getLast?_eq_getLast _ hBne]
      rw [hbA, hbB]
      set emin := (A.map dateOf).head hAne with hemindef
      set emax := (A.map dateOf).getLast hAne with hemaxdef
      set nmin := (B.map dateOf).head hBne with hnmindef
      set nmax := (B.map dateOf).getLast hBne with hnmaxdef
      have hminA : ∀ x ∈ A.map dateOf, lexLt x.data emin.data = false := by
        intro x hx
        have := pairwise_head_rel' hrefl sA' hAne x hx
        rwa [pyStrLe_iff] at this
      have hmaxA : ∀ x ∈ A.map dateOf, lexLt emax.data x.data = false := by
        intro x hx
        have := pairwise_getLast_rel hrefl sA' hAne x hx
        rwa [pyStrLe_iff] at this
      have hminB : ∀ x ∈ B.map dateOf, lexLt x.data nmin.data = false := by
        intro x hx
        have := pairwise_head_rel' hrefl sB' hBne x hx
        rwa [pyStrLe_iff] at this
      have hmaxB : ∀ x ∈ B.map dateOf, lexLt nmax.data x.data = false := by
        intro x hx
        have := pairwise_getLast_rel hrefl sB' hBne x hx
        rwa [pyStrLe_iff] at this
      have hcem : canonicalDate emin = true := hcanA _ (List.head_mem hAne)
      have hceM : canonicalDate emax = true := hcanA _ (List.getLast_mem hAne)
      have hcnm : canonicalDate nmin = true := hcanB _ (List.head_mem hBne)
      have hcnM : canonicalDate nmax = true := hcanB _ (List.getLast_mem hBne)
      dsimp only
      by_cases hc1 : compare_dates nmax emin < 0
      · rw [if_pos hc1]
        have hlt : lexLt nmax.data emin.data = true := by
          have := (canonical_compare hcnM hcem).1.mp hc1
          simpa [pyStrLt] using this
        rw [merge_of_gt]
        intro x hx y hy
        have hdy : lexLt nmax.data (dateOf y).data = false :=
          hmaxB _ (List.mem_map_of_mem dateOf hy)
        have hdx : lexLt (dateOf x).data emin.data = false :=
          hminA _ (List.mem_map_of_mem dateOf hx)
        have hstep : lexLt (dateOf y).data emin.data = true :=
          lexLt_lt_of_le_of_lt hdy hlt
        have hstrict : lexLt (dateOf y).data (dateOf x).data = true :=
          lexLt_lt_of_lt_of_le hstep hdx
        rw [Bool.eq_false_iff]
        intro hcon
        rw [dateLeB_iff (hA x hx) (hB y hy)] at hcon
        rw [hcon] at hstrict
        exact Bool.false_ne_true hstrict
      · rw [if_neg hc1]
        by_cases hc2 : compare_dates nmin emax > 0
        · rw [if_pos hc2]
          have hlt : lexLt emax.data nmin.data = true :=
            (canonical_lt_iff hcnm hceM).mp hc2
          rw [List.merge_of_le]
          intro x y hx hy
          rw [dateLeB_iff (hA x hx) (hB y hy)]
          by_cases hcon : lexLt (dateOf y).data (dateOf x).data = true
          · have hdx : lexLt emax.data (dateOf x).data = false :=
              hmaxA _ (List.mem_map_of_mem dateOf hx)
            have hdy : lexLt (dateOf y).data nmin.data = false :=
              hminB _ (List.mem_map_of_mem dateOf hy)
            have hstep : lexLt (dateOf y).data emax.data = true :=
              lexLt_lt_of_lt_of_le hcon hdx
            have hfin : lexLt (dateOf y).data nmin.data = true :=
              lexLt_trans hstep hlt
            rw [hfin] at hdy
            exact absurd hdy (by simp)
          · simpa using hcon
        · rw [if_neg hc2]
          exact sorted_merge_py_eq_merge dateOf A B

/-! ### Equal-date classes of the merge: the existing side comes first -/

theorem merge_filter_canonical (dateOf : α → String) (d : String) :
    ∀ (A B : List α), (∀ a ∈ A, canonicalDate (dateOf a) = true) →
      (∀ b ∈ B, canonicalDate (dateOf b) = true) →
      A.Pairwise (fun a b => dateLeB dateOf a b = true) →
      (List.merge A B (dateLeB dateOf)).filter (fun x => dateOf x == d) =
        A.filter (fun x => dateOf x == d) ++ B.filter (fun x => dateOf x == d)
  | [], B, _, _, _ => by simp [List.nil_merge]
  | _ :: _, [], _, _, _ => by simp [List.merge_right]
  | a :: as, b :: bs, hA, hB, sA => by
    by_cases hle : dateLeB dateOf a b = true
    · rw [List.cons_merge_cons_pos _ _ _ hle]
      rw [List.filter_cons]
      rw [merge_filter_canonical dateOf d as (b :: bs)
        (fun x hx => hA x (List.mem_cons_of_mem _ hx)) hB
        (List.pairwise_cons.mp sA).2]
      by_cases hpa : (dateOf a == d) = true
      · simp [List.filter_cons, hpa]
      · simp [List.filter_cons, hpa]
    · rw [List.cons_merge_cons_neg _ _ _ (by simp [hle])]
      rw [List.filter_cons]
      rw [merge_filter_canonical dateOf d (a :: as) bs hA
        (fun x hx => hB x (List.mem_cons_of_mem _ hx)) sA]
      by_cases hpb : (dateOf b == d) = true
      · have hba : lexLt (dateOf b).data (dateOf a).data = true := by
          by_cases hx : lexLt (dateOf b).data (dateOf a).data = true
          · exact hx
          · exact absurd ((dateLeB_iff (hA a (List.mem_cons_self a as))
              (hB b (List.mem_cons_self b bs))).mpr (by simpa using hx)) hle
        have hdeq : dateOf b = d := by simpa using hpb
        have hnil : (a :: as).filter (fun x => dateOf x == d) = [] := by
          rw [List.filter_eq_nil_iff]
          intro x hx hcon
          have hxd : dateOf x = d := by simpa using hcon
          have hxb : (dateOf x).data = (dateOf b).data := by rw [hxd, hdeq]
          rcases List.mem_cons.mp hx with rfl | hx'
          · rw [hxb] at hba
            exact absurd hba (by simp [lexLt_irrefl])
          · have hax : dateLeB dateOf a x = true :=
              List.rel_of_pairwise_cons sA hx'
            have hax' : lexLt (dateOf x).data (dateOf a).data = false :=
              (dateLeB_iff (hA a (List.mem_cons_self a as))
                (hA x (List.mem_cons_of_mem _ hx'))).mp hax
            rw [hxb] at hax'
            rw [hax'] at hba
            exact absurd hba (by simp)
        rw [hnil]
        simp [List.filter_cons, hpb]
      · simp [List.filter_cons, hpb]
termination_by A B => A.length + B.length
decreasing_by all_goals simp +arith

/-! ### Shape of parse_date outputs -/

theorem isDigitC_dc (n : Nat) : isDigitC (dc n) = true := by
  have h : n % 10 < 10 := Nat.mod_lt _ (by omega)
  unfold dc
  set k := n % 10 with hk
  interval_cases k <;> decide

theorem natChars_digits (n : Nat) : ∀ c ∈ natChars n, isDigitC c = true := by
  intro c hc
  by_cases h1 : n < 10
  · simp [natChars, h1] at hc
    rcases hc with rfl
    exact isDigitC_dc _
  · by_cases h2 : n < 100
    · simp [natChars, h1, h2] at hc
      rcases hc with rfl | rfl <;> exact isDigitC_dc _
    · by_cases h3 : n < 1000
      · simp [natChars, h1, h2, h3] at hc
        rcases hc with rfl | rfl | rfl <;> exact isDigitC_dc _
      · simp [natChars, h1, h2, h3] at hc
        rcases hc with rfl | rfl | rfl | rfl <;> exact isDigitC_dc _

theorem natChars_of_ge_1000 {n : Nat} (h1 : 1000 ≤ n) :
    natChars n = [dc (n / 1000), dc (n / 100), dc (n / 10), dc n] := by
  unfold natChars
  rw [if_neg (by omega), if_neg (by omega), if_neg (by omega)]

theorem natChars_len (n : Nat) :
    1 ≤ (natChars n).length ∧ (natChars n).length ≤ 4 := by
  by_cases h1 : n < 10
  · simp [natChars, h1]
  · by_cases h2 : n < 100
    · simp [natChars, h1, h2]
    · by_cases h3 : n < 1000
      · simp [natChars, h1, h2, h3]
      · simp [natChars, h1, h2, h3]

theorem formatDate_data (y m d : Nat) :
    (formatDate y m d).data =
      natChars y ++ '-' :: [dc (m / 10), dc m] ++ '-' :: [dc (d / 10), dc d] := rfl

theorem isShape_formatDate {y : Nat} (m d : Nat) (h1 : 1000 ≤ y) :
    isShape (formatDate y m d).data = true := by
  rw [formatDate_data, natChars_of_ge_1000 h1]
  simp [isShape, isDigitC_dc]

theorem foldl_digits_lt :
    ∀ (l : List Char) (init : Nat), (∀ c ∈ l, isDigitC c = true) →
      l.foldl (fun a c => a * 10 + (c.toNat - 48)) init < (init + 1) * 10 ^ l.length
  | [], init, _ => by simpa using Nat.lt_succ_self init
  | c :: cs, init, h => by
    have hc := isDigitC_bounds (h c (List.mem_cons_self c cs))
    have ih := foldl_digits_lt cs (init * 10 + (c.toNat - 48))
      (fun x hx => h x (List.mem_cons_of_mem _ hx))
    simp only [List.foldl_cons, List.length_cons]
    refine lt_of_lt_of_le ih ?_
    have hstep : init * 10 + (c.toNat - 48) + 1 ≤ (init + 1) * 10 := by omega
    calc (init * 10 + (c.toNat - 48) + 1) * 10 ^ cs.length
        ≤ (init + 1) * 10 * 10 ^ cs.length := Nat.mul_le_mul_right _ hstep
      _ = (init + 1) * 10 ^ (cs.length + 1) := by ring

theorem natOfDigits_lt {l : List Char} (hd : ∀ c ∈ l, isDigitC c = true) :
    natOfDigits l < 10 ^ l.length := by
  simpa [natOfDigits] using foldl_digits_lt l 0 hd

theorem parse4Year_bounds {l : List Char} {y : Nat} (h : parse4Year l = some y) :
    y ≤ 9999 := by
  unfold parse4Year at h
  split at h
  · next hc =>
    injection h with h
    subst h
    have hb := natOfDigits_lt (l := l) (by
      intro c hcm
      exact List.all_eq_true.mp hc.2 c hcm)
    rw [hc.1] at hb
    omega
  · exact absurd h (by simp)

theorem parse2Field_bounds {lo hi : Nat} {l : List Char} {v : Nat}
    (h : parse2Field lo hi l = some v) : lo ≤ v ∧ v ≤ hi := by
  unfold parse2Field at h
  split at h
  · dsimp only at h
    split at h
    · next hr =>
      injection h with h
      subst h
      exact hr
    · exact absurd h (by simp)
  · exact absurd h (by simp)

theorem strptimeDate_bounds {sep : Char} {ord : Ord3} {l : List Char} {y m d : Nat}
    (h : strptimeDate sep ord l = some (y, m, d)) :
    1 ≤ y ∧ y ≤ 9999 ∧ 1 ≤ m ∧ m ≤ 12 ∧ 1 ≤ d ∧ d ≤ 31 := by
  cases ord <;>
  · unfold strptimeDate at h
    split at h
    · dsimp only at h
      split at h
      · next hy hm hd =>
        split at h
        · next hv =>
          injection h with h
          obtain ⟨rfl, rfl, rfl⟩ : _ ∧ _ ∧ _ := by
            simpa using h
          have h4 := parse4Year_bounds hy
          have hm' := parse2Field_bounds hm
          have hd' := parse2Field_bounds hd
          exact ⟨hv.1, h4, hm'.1, hm'.2, hd'.1, hd'.2⟩
        · exact absurd h (by simp)
      · exact absurd h (by simp)
    · exact absurd h (by simp)

theorem tryFormats_bounds :
    ∀ (fmts : List (Char × Ord3)) {l : List Char} {y m d : Nat},
      tryFormats l fmts = some (y, m, d) →
      1 ≤ y ∧ y ≤ 9999 ∧ 1 ≤ m ∧ m ≤ 12 ∧ 1 ≤ d ∧ d ≤ 31
  | [], _, _, _, _, h => by simp [tryFormats] at h
  | (sep, ord) :: rest, l, y, m, d, h => by
    unfold tryFormats at h
    split at h
    · next heq =>
      injection h with h
      subst h
      exact strptimeDate_bounds heq
    · exact tryFormats_bounds rest h

/-- Relaxed output pattern of strftime under glibc: one to four year digits,
then zero-padded month and day. -/
def looseIsoShape (l : List Char) : Bool :=
  match splitSep '-' l with
  | [f1, f2, f3] =>
    decide (1 ≤ f1.length) && decide (f1.length ≤ 4) && f1.all isDigitC &&
    decide (f2.length = 2) && f2.all isDigitC &&
    decide (f3.length = 2) && f3.all isDigitC
  | _ => false

/-- Everything parse_date can hand back: a loose ISO rendering, or an echoed
fast-path string whose newline survived. -/
def looseDateOutput (s : String) : Bool :=
  looseIsoShape s.data ||
    (s.data.getLast? == some '\n' && isShape s.data.dropLast)

theorem splitSep_formatDate (y m d : Nat) :
    splitSep '-' (formatDate y m d).data =
      [natChars y, [dc (m / 10), dc m], [dc (d / 10), dc d]] := by
  have hm : ∀ c ∈ [dc (m / 10), dc m], (c == '-') = false := by
    intro c hc
    simp only [List.mem_cons, List.not_mem_nil, or_false] at hc
    rcases hc with rfl | rfl <;> exact digit_beq_dash (isDigitC_dc _)
  have hy : ∀ c ∈ natChars y, (c == '-') = false :=
    fun c hc => digit_beq_dash (natChars_digits y c hc)
  have hd2 : ∀ c ∈ [dc (d / 10), dc d], (c == '-') = false := by
    intro c hc
    simp only [List.mem_cons, List.not_mem_nil, or_false] at hc
    rcases hc with rfl | rfl <;> exact digit_beq_dash (isDigitC_dc _)
  rw [formatDate_data, List.append_assoc, List.cons_append]
  rw [splitSep_append '-' _ _ hy, splitSep_append '-' _ _ hm,
    splitSep_single '-' _ hd2]

theorem looseIsoShape_formatDate (y m d : Nat) :
    looseIsoShape (formatDate y m d).data = true := by
  unfold looseIsoShape
  rw [splitSep_formatDate]
  have hlen := natChars_len y
  simp [List.all_eq_true, isDigitC_dc, hlen.1, hlen.2]
  exact natChars_digits y

theorem splitSep_shape {y1 y2 y3 y4 m1 m2 d1 d2 : Char}
    (h1 : isDigitC y1 = true) (h2 : isDigitC y2 = true)
    (h3 : isDigitC y3 = true) (h4 : isDigitC y4 = true)
    (h5 : isDigitC m1 = true) (h6 : isDigitC m2 = true)
    (h7 : isDigitC d1 = true) (h8 : isDigitC d2 = true) :
    splitSep '-' [y1, y2, y3, y4, '-', m1, m2, '-', d1, d2] =
      [[y1, y2, y3, y4], [m1, m2], [d1, d2]] := by
  have e : ([y1, y2, y3, y4, '-', m1, m2, '-', d1, d2] : List Char) =
      [y1, y2, y3, y4] ++ '-' :: ([m1, m2] ++ '-' :: [d1, d2]) := rfl
  rw [e]
  rw [splitSep_append '-' _ _ (by
    intro c hc
    simp only [List.mem_cons, List.not_mem_nil, or_false] at hc
    rcases hc with rfl | rfl | rfl | rfl <;>
      [exact digit_beq_dash h1; exact digit_beq_dash h2;
       exact digit_beq_dash h3; exact digit_beq_dash h4])]
  rw [splitSep_append '-' _ _ (by
    intro c hc
    simp only [List.mem_cons, List.not_mem_nil, or_false] at hc
    rcases hc with rfl | rfl <;> [exact digit_beq_dash h5; exact digit_beq_dash h6])]
  rw [splitSep_single '-' _ (by
    intro c hc
    simp only [List.mem_cons, List.not_mem_nil, or_false] at hc
    rcases hc with rfl | rfl <;> [exact digit_beq_dash h7; exact digit_beq_dash h8])]

theorem isShape_loose {l : List Char} (h : isShape l = true) :
    looseIsoShape l = true := by
  obtain ⟨y1, y2, y3, y4, m1, m2, d1, d2, hl, h1, h2, h3, h4, h5, h6, h7, h8⟩ :=
    isShape_elim h
  subst hl
  unfold looseIsoShape
  rw [splitSep_shape h1 h2 h3 h4 h5 h6 h7 h8]
  simp [h1, h2, h3, h4, h5, h6, h7, h8]

/-- Range invariants of a cell as Python hands them over: a datetime value
always carries a year between 1 and 9999 and calendar-valid month and day. -/
def wellFormedCell : Cell → Bool
  | .dt y m d => decide (1 ≤ y) && decide (y ≤ 9999) && decide (1 ≤ m) &&
      decide (m ≤ 12) && decide (1 ≤ d) && decide (d ≤ 31)
  | _ => true

theorem parse_date_loose {v : Cell} {s : String} (h : parse_date v = some s) :
    looseDateOutput s = true := by
  match v with
  | .na => simp [parse_date] at h
  | .num x => simp [parse_date] at h
  | .dt y m d =>
    simp only [parse_date, Option.some.injEq] at h
    subst h
    unfold looseDateOutput
    rw [looseIsoShape_formatDate]
    simp
  | .str s0 =>
    simp only [parse_date] at h
    split at h
    · next hfp =>
      injection h with h
      subst h
      unfold looseDateOutput
      unfold fastPathMatch at hfp
      rcases (Bool.or_eq_true _ _).mp hfp with hsh | hnl
      · rw [isShape_loose hsh]
        simp
      · rw [hnl]
        simp
    · split at h
      · next y m d heq =>
        injection h with h
        subst h
        unfold looseDateOutput
        rw [looseIsoShape_formatDate]
        simp
      · exact absurd h (by simp)

theorem parse_date_idem_or_small {v : Cell} {s : String}
    (h : parse_date v = some s) :
    parse_date (.str s) = some s ∨ ∃ y m d, y < 1000 ∧ s = formatDate y m d := by
  have echo : ∀ y m d : Nat, 1000 ≤ y →
      parse_date (.str (formatDate y m d)) = some (formatDate y m d) := by
    intro y m d hy
    simp only [parse_date]
    rw [if_pos (by
      unfold fastPathMatch
      rw [isShape_formatDate m d hy]
      simp)]
  match v with
  | .na => simp [parse_date] at h
  | .num x => simp [parse_date] at h
  | .dt y m d =>
    simp only [parse_date, Option.some.injEq] at h
    subst h
    by_cases hy : 1000 ≤ y
    · exact Or.inl (echo y m d hy)
    · exact Or.inr ⟨y, m, d, by omega, rfl⟩
  | .str s0 =>
    simp only [parse_date] at h
    split at h
    · next hfp =>
      injection h with h
      subst h
      left
      simp only [parse_date]
      rw [if_pos hfp]
    · split at h
      · next y m d heq =>
        injection h with h
        subst h
        by_cases hy : 1000 ≤ y
        · exact Or.inl (echo y m d hy)
        · exact Or.inr ⟨y, m, d, by omega, rfl⟩
      · exact absurd h (by simp)

/-! ### Per-file decomposition of the orchestrator fold -/

/-- The five sorted buckets one file contributes to the accumulation (empty
when the file fails to load or validate). -/
def fileBuckets (f : JobFile) : Buckets :=
  match f.content with
  | .loadFail _ => {}
  | .loaded t =>
    if t.rows.isEmpty || t.cols.isEmpty then {}
    else sortBuckets (rowLoop f.name t.cols (find_transaction_type_column t.cols) t.rows).1

/-- The diagnostics one file contributes to the accumulation. -/
def fileErrors (f : JobFile) : List String :=
  match f.content with
  | .loadFail err => ["File " ++ f.name ++ " failed to load: " ++ err]
  | .loaded t =>
    if t.rows.isEmpty || t.cols.isEmpty then
      ["File " ++ f.name ++ " validation failed: " ++
        (f.name ++ ": File is empty (no rows)")]
    else
      (match find_transaction_type_column t.cols with
       | none => ["File " ++ f.name ++ ": Could not find transaction type column. " ++
           "Available columns: " ++ pyListRepr t.cols]
       | some _ => []) ++
      (rowLoop f.name t.cols (find_transaction_type_column t.cols) t.rows).2

theorem merge_transactions_nil {α : Type} (dOf : α → String) (X : List α) :
    merge_transactions dOf X [] = X := by
  simp [merge_transactions]

theorem process_file_decomp (st : ParserState) (f : JobFile) :
    process_file st f =
      { purchases := merge_transactions Purchase.date st.purchases (fileBuckets f).purchases
        sales := merge_transactions Sale.date st.sales (fileBuckets f).sales
        dividends := merge_transactions Dividend.date st.dividends (fileBuckets f).dividends
        taxes := merge_transactions Tax.date st.taxes (fileBuckets f).taxes
        transfers := merge_transactions Transfer.date st.transfers (fileBuckets f).transfers
        errors := st.errors ++ fileErrors f } := by
  obtain ⟨name, content⟩ := f
  cases content with
  | loadFail err =>
    simp [process_file, fileBuckets, fileErrors, merge_transactions_nil]
  | loaded t =>
    by_cases hv : (t.rows.isEmpty || t.cols.isEmpty) = true
    · simp [process_file, validate_dataframe, hv, fileBuckets, fileErrors,
        merge_transactions_nil]
    · simp only [Bool.not_eq_true, Bool.or_eq_false_iff] at hv
      obtain ⟨hrows, hcols⟩ := hv
      have hlen : ¬ t.cols.length = 0 := by
        cases hc : t.cols with
        | nil => rw [hc] at hcols; simp at hcols
        | cons a l => simp
      cases hf : find_transaction_type_column t.cols with
      | none =>
        simp [process_file, validate_dataframe, hrows, hcols, hlen, fileBuckets,
          fileErrors, hf]
      | some col =>
        simp [process_file, validate_dataframe, hrows, hcols, hlen, fileBuckets,
          fileErrors, hf]

theorem foldl_errors : ∀ (fs : List JobFile) (st : ParserState),
    (fs.foldl process_file st).errors = st.errors ++ (fs.map fileErrors).flatten
  | [], st => by simp
  | f :: fs, st => by
    rw [List.foldl_cons, foldl_errors fs, process_file_decomp]
    simp [List.append_assoc]

theorem foldl_records : ∀ (fs : List JobFile) (st : ParserState),
    ((fs.foldl process_file st).purchases).Perm
      (st.purchases ++ (fs.map (fun f => (fileBuckets f).purchases)).flatten) ∧
    ((fs.foldl process_file st).sales).Perm
      (st.sales ++ (fs.map (fun f => (fileBuckets f).sales)).flatten) ∧
    ((fs.foldl process_file st).dividends).Perm
      (st.dividends ++ (fs.map (fun f => (fileBuckets f).dividends)).flatten) ∧
    ((fs.foldl process_file st).taxes).Perm
      (st.taxes ++ (fs.map (fun f => (fileBuckets f).taxes)).flatten) ∧
    ((fs.foldl process_file st).transfers).Perm
      (st.transfers ++ (fs.map (fun f => (fileBuckets f).transfers)).flatten)
  | [], st => by simp
  | f :: fs, st => by
    have ih := foldl_records fs (process_file st f)
    rw [List.foldl_cons] at *
    have h1 : (process_file st f).purchases.Perm
        (st.purchases ++ (fileBuckets f).purchases) := by
      rw [process_file_decomp]
      exact merge_transactions_perm _ _ _
    have h2 : (process_file st f).sales.Perm
        (st.sales ++ (fileBuckets f).sales) := by
      rw [process_file_decomp]
      exact merge_transactions_perm _ _ _
    have h3 : (process_file st f).dividends.Perm
        (st.dividends ++ (fileBuckets f).dividends) := by
      rw [process_file_decomp]
      exact merge_transactions_perm _ _ _
    have h4 : (process_file st f).taxes.Perm
        (st.taxes ++ (fileBuckets f).taxes) := by
      rw [process_file_decomp]
      exact merge_transactions_perm _ _ _
    have h5 : (process_file st f).transfers.Perm
        (st.transfers ++ (fileBuckets f).transfers) := by
      rw [process_file_decomp]
      exact merge_transactions_perm _ _ _
    refine ⟨?_, ?_, ?_, ?_, ?_⟩
    · simpa [List.append_assoc] using ih.1.trans (h1.append_right _)
    · simpa [List.append_assoc] using ih.2.1.trans (h2.append_right _)
    · simpa [List.append_assoc] using ih.2.2.1.trans (h3.append_right _)
    · simpa [List.append_assoc] using ih.2.2.2.1.trans (h4.append_right _)
    · simpa [List.append_assoc] using ih.2.2.2.2.trans (h5.append_right _)

/-! ### Diagnostics name the failing file -/

theorem startsWithL_self_append : ∀ (l r : List Char), startsWithL l (l ++ r) = true
  | [], r => rfl
  | c :: cs, r => by
    show (c == c && startsWithL cs (cs ++ r)) = true
    rw [startsWithL_self_append cs r]
    simp

theorem containsSub_prefix : ∀ (pat rest : List Char), containsSub pat (pat ++ rest) = true
  | [], [] => rfl
  | [], c :: cs => by simp [containsSub, startsWithL]
  | p :: ps, rest => by
    show (startsWithL (p :: ps) ((p :: ps) ++ rest) || containsSub (p :: ps) (ps ++ rest)) = true
    rw [startsWithL_self_append]
    simp

theorem containsSub_mid (pat : List Char) :
    ∀ (pre post : List Char), containsSub pat (pre ++ (pat ++ post)) = true
  | [], post => containsSub_prefix pat post
  | c :: pre, post => by
    show (startsWithL pat (c :: (pre ++ (pat ++ post))) ||
      containsSub pat (pre ++ (pat ++ post))) = true
    rw [containsSub_mid pat pre post]
    simp

/-- A file-level failure: the loader failed, or the frame has an empty axis. -/
def fileFailure (f : JobFile) : Bool :=
  match f.content with
  | .loadFail _ => true
  | .loaded t => t.rows.isEmpty || t.cols.isEmpty

/-- The single diagnostic such a failure produces. -/
def failDiag (f : JobFile) : String :=
  match f.content with
  | .loadFail err => "File " ++ f.name ++ " failed to load: " ++ err
  | .loaded _ => "File " ++ f.name ++ " validation failed: " ++
      (f.name ++ ": File is empty (no rows)")

theorem fileErrors_of_failure {f : JobFile} (h : fileFailure f = true) :
    fileBuckets f = {} ∧ fileErrors f = [failDiag f] := by
  obtain ⟨name, content⟩ := f
  cases content with
  | loadFail err => exact ⟨rfl, rfl⟩
  | loaded t =>
    have hv : (t.rows.isEmpty || t.cols.isEmpty) = true := by
      simpa [fileFailure] using h
    constructor
    · simp [fileBuckets, hv]
    · simp [fileErrors, failDiag, hv]

theorem failDiag_names (f : JobFile) :
    pyContains (failDiag f) f.name = true := by
  obtain ⟨name, content⟩ := f
  cases content with
  | loadFail err =>
    show containsSub name.data (("File " ++ name ++ " failed to load: " ++ err).data) = true
    have e : ("File " ++ name ++ " failed to load: " ++ err).data =
        "File ".data ++ (name.data ++ (" failed to load: ".data ++ err.data)) := by
      simp [String.data_append, List.append_assoc]
    rw [e]
    exact containsSub_mid _ _ _
  | loaded t =>
    show containsSub name.data
      (("File " ++ name ++ " validation failed: " ++
        (name ++ ": File is empty (no rows)")).data) = true
    have e : ("File " ++ name ++ " validation failed: " ++
        (name ++ ": File is empty (no rows)")).data =
        "File ".data ++ (name.data ++ (" validation failed: ".data ++
          (name ++ ": File is empty (no rows)").data)) := by
      simp [String.data_append, List.append_assoc]
    rw [e]
    exact containsSub_mid _ _ _

theorem process_file_failure {f : JobFile} (h : fileFailure f = true)
    (st : ParserState) :
    (process_file st f).purchases = st.purchases ∧
    (process_file st f).sales = st.sales ∧
    (process_file st f).dividends = st.dividends ∧
    (process_file st f).taxes = st.taxes ∧
    (process_file st f).transfers = st.transfers ∧
    (process_file st f).errors = st.errors ++ [failDiag f] := by
  obtain ⟨hbk, herr⟩ := fileErrors_of_failure h
  rw [process_file_decomp, hbk, herr]
  dsimp only
  refine ⟨?_, ?_, ?_, ?_, ?_, rfl⟩ <;> exact merge_transactions_nil _ _

theorem foldl_records_ext : ∀ (fs : List JobFile) (st st' : ParserState),
    st.purchases = st'.purchases → st.sales = st'.sales →
    st.dividends = st'.dividends → st.taxes = st'.taxes →
    st.transfers = st'.transfers →
    (fs.foldl process_file st).purchases = (fs.foldl process_file st').purchases ∧
    (fs.foldl process_file st).sales = (fs.foldl process_file st').sales ∧
    (fs.foldl process_file st).dividends = (fs.foldl process_file st').dividends ∧
    (fs.foldl process_file st).taxes = (fs.foldl process_file st').taxes ∧
    (fs.foldl process_file st).transfers = (fs.foldl process_file st').transfers
  | [], st, st', h1, h2, h3, h4, h5 => ⟨h1, h2, h3, h4, h5⟩
  | f :: fs, st, st', h1, h2, h3, h4, h5 => by
    rw [List.foldl_cons, List.foldl_cons]
    exact foldl_records_ext fs (process_file st f) (process_file st' f)
      (by rw [process_file_decomp, process_file_decomp]; simp [h1])
      (by rw [process_file_decomp, process_file_decomp]; simp [h2])
      (by rw [process_file_decomp, process_file_decomp]; simp [h3])
      (by rw [process_file_decomp, process_file_decomp]; simp [h4])
      (by rw [process_file_decomp, process_file_decomp]; simp [h5])

/-! ## The claims -/

/-- Inputs for exercising the merge on concrete purchases. -/
def mkP (date sym : String) : Purchase :=
  { date := date, company_symbol := sym, quantity := .num 1 0,
    unit_price := .num 1 0, currency := "USD" }

/-- C1 (amended): when every date is a canonical YYYY-MM-DD calendar date and
both inputs are sorted non-decreasing by date, merge_transactions returns a
sorted interleave of the two inputs in which, for every date, the elements of
the existing input precede the elements of the new input. -/
theorem claim_C1 {α : Type} (dateOf : α → String) (existing nw : List α)
    (hA : ∀ a ∈ existing, canonicalDate (dateOf a) = true)
    (hB : ∀ b ∈ nw, canonicalDate (dateOf b) = true)
    (sA : existing.Pairwise (fun a b => dateLeB dateOf a b = true))
    (sB : nw.Pairwise (fun a b => dateLeB dateOf a b = true)) :
    (merge_transactions dateOf existing nw).Pairwise
      (fun a b => dateLeB dateOf a b = true) ∧
    Interleave existing nw (merge_transactions dateOf existing nw) ∧
    ∀ d, (merge_transactions dateOf existing nw).filter (fun x => dateOf x == d) =
      existing.filter (fun x => dateOf x == d) ++
      nw.filter (fun x => dateOf x == d) := by
  rw [merge_transactions_eq_merge dateOf existing nw hA hB sA sB]
  refine ⟨?_, ?_, ?_⟩
  · exact merge_pairwise_restricted (dateLeB dateOf)
      (fun x => canonicalDate (dateOf x) = true)
      (fun a b c => dateLeB_trans_canonical dateOf a b c)
      (fun a b => dateLeB_total_canonical dateOf a b)
      existing nw hA hB sA sB
  · exact interleave_merge _ _ _
  · intro d
    exact merge_filter_canonical dateOf d existing nw hA hB sA

theorem claim_C1_witness :
    (∀ a ∈ [mkP "2023-01-10" "E1", mkP "2023-01-20" "E2"],
      canonicalDate (Purchase.date a) = true) ∧
    (∀ b ∈ [mkP "2023-01-20" "N1"], canonicalDate (Purchase.date b) = true) ∧
    ([mkP "2023-01-10" "E1", mkP "2023-01-20" "E2"].Pairwise
      (fun a b => dateLeB Purchase.date a b = true)) ∧
    ([mkP "2023-01-20" "N1"].Pairwise
      (fun a b => dateLeB Purchase.date a b = true)) ∧
    ((merge_transactions Purchase.date
        [mkP "2023-01-10" "E1", mkP "2023-01-20" "E2"]
        [mkP "2023-01-20" "N1"]).Pairwise
      (fun a b => dateLeB Purchase.date a b = true) ∧
    Interleave [mkP "2023-01-10" "E1", mkP "2023-01-20" "E2"]
      [mkP "2023-01-20" "N1"]
      (merge_transactions Purchase.date
        [mkP "2023-01-10" "E1", mkP "2023-01-20" "E2"]
        [mkP "2023-01-20" "N1"]) ∧
    ∀ d, (merge_transactions Purchase.date
        [mkP "2023-01-10" "E1", mkP "2023-01-20" "E2"]
        [mkP "2023-01-20" "N1"]).filter (fun x => Purchase.date x == d) =
      [mkP "2023-01-10" "E1", mkP "2023-01-20" "E2"].filter
        (fun x => Purchase.date x == d) ++
      [mkP "2023-01-20" "N1"].filter (fun x => Purchase.date x == d)) :=
  ⟨by decide, by decide, by decide, by decide,
    claim_C1 Purchase.date _ _ (by decide) (by decide) (by decide) (by decide)⟩

theorem claim_C1_counterexample :
    ([mkP "2023-1-20" "E1", mkP "2023-02-10" "E2"].Pairwise
      (fun a b => dateLeB Purchase.date a b = true)) ∧
    ([mkP "2023-01-25" "N1"].Pairwise
      (fun a b => dateLeB Purchase.date a b = true)) ∧
    merge_transactions Purchase.date
        [mkP "2023-1-20" "E1", mkP "2023-02-10" "E2"] [mkP "2023-01-25" "N1"] =
      [mkP "2023-01-25" "N1", mkP "2023-1-20" "E1", mkP "2023-02-10" "E2"] ∧
    ¬ (merge_transactions Purchase.date
        [mkP "2023-1-20" "E1", mkP "2023-02-10" "E2"]
        [mkP "2023-01-25" "N1"]).Pairwise
      (fun a b => dateLeB Purchase.date a b = true) := by decide

/-- C2: the purchase transform succeeds exactly when date, quantity and unit
price parse (no partially populated record otherwise); currency defaults to
USD when position 6 is blank or absent; company_symbol defaults to the empty
string; the sale transform is the identical mapping repackaged as a Sale. -/
theorem claim_C2 (row : List Cell) :
    ((transform_to_purchase row).isSome = true ↔
      ((parse_date (get_cell_value row 0 .na)).isSome = true ∧
       (parse_float (get_cell_value row 4 .na)).isSome = true ∧
       (parse_float (get_cell_value row 5 .na)).isSome = true)) ∧
    (∀ p, transform_to_purchase row = some p →
      (pyStrip (pyStr (get_cell_value row 6 (.str ""))) = "" → p.currency = "USD") ∧
      (pyTruthy (get_cell_value row 3 (.str "")) = false → p.company_symbol = "")) ∧
    transform_to_sale row = (transform_to_purchase row).map (fun p =>
      { date := p.date, company_symbol := p.company_symbol, quantity := p.quantity,
        unit_price := p.unit_price, currency := p.currency,
        transaction_fee := p.transaction_fee,
        proceeds_foreign := p.proceeds_foreign,
        proceeds_ils := p.proceeds_ils }) := by
  rcases h0 : parse_date (get_cell_value row 0 .na) with _ | ds
  · refine ⟨by simp [transform_to_purchase, h0], ?_, ?_⟩
    · intro p hp
      simp [transform_to_purchase, h0] at hp
    · simp [transform_to_sale, transform_to_purchase, h0]
  · rcases h4 : parse_float (get_cell_value row 4 .na) with _ | q
    · refine ⟨by simp [transform_to_purchase, h0, h4], ?_, ?_⟩
      · intro p hp
        simp [transform_to_purchase, h0, h4] at hp
      · simp [transform_to_sale, transform_to_purchase, h0, h4]
    · rcases h5 : parse_float (get_cell_value row 5 .na) with _ | u
      · refine ⟨by simp [transform_to_purchase, h0, h4, h5], ?_, ?_⟩
        · intro p hp
          simp [transform_to_purchase, h0, h4, h5] at hp
        · simp [transform_to_sale, transform_to_purchase, h0, h4, h5]
      · refine ⟨by simp [transform_to_purchase, h0, h4, h5], ?_, ?_⟩
        · intro p hp
          simp only [transform_to_purchase, h0, h4, h5, Option.some.injEq] at hp
          subst hp
          constructor
          · intro hc
            simp [hc]
          · intro hc
            simp [hc, pyStr]
        · simp [transform_to_sale, transform_to_purchase, h0, h4, h5]

/-- Concrete purchase row exercising the defaults of the transform. -/
def c2row : List Cell :=
  [.str "2023-01-15", .na, .na, .na, .str "10", .str "150.50"]

/-- The record the purchase transform produces for that row. -/
def c2rec : Purchase :=
  { date := "2023-01-15", company_symbol := "", quantity := .num 10 0,
    unit_price := .num 15050 (-2), currency := "USD" }

theorem claim_C2_witness :
    pyStrip (pyStr (get_cell_value c2row 6 (.str ""))) = "" ∧
    pyTruthy (get_cell_value c2row 3 (.str "")) = false ∧
    transform_to_purchase c2row = some c2rec ∧
    c2rec.currency = "USD" ∧
    c2rec.company_symbol = "" ∧
    transform_to_sale c2row = (transform_to_purchase c2row).map (fun p =>
      { date := p.date, company_symbol := p.company_symbol,
        quantity := p.quantity, unit_price := p.unit_price, currency := p.currency,
        transaction_fee := p.transaction_fee,
        proceeds_foreign := p.proceeds_foreign,
        proceeds_ils := p.proceeds_ils }) :=
  ⟨by decide, by decide, by decide,
    ((claim_C2 c2row).2.1 c2rec (by decide)).1 (by decide),
    ((claim_C2 c2row).2.1 c2rec (by decide)).2 (by decide),
    (claim_C2 c2row).2.2⟩

/-- The stringified, stripped and lower-cased value a row carries at a type
column. -/
def typeValueAt (cols : List String) (row : List Cell) (col : String) : String :=
  pyLower (pyStrip (pyStr (row.getD (idxOfStr col cols) Cell.na)))

/-- C3: categorization reads the trimmed lower-cased value at the type
column (no column given, or a label absent from the header, yields none),
returns the first of the six keyword lists, in priority order, containing a
matching keyword, and yields none rather than an error on no match; a value
hitting the tax list while missing the three higher-priority lists
categorizes as tax whether or not it also hits the fee list. -/
theorem claim_C3 (cols : List String) (row : List Cell) :
    categorize_transaction cols row none = none ∧
    (∀ col, cols.contains col = false →
      categorize_transaction cols row (some col) = none) ∧
    (∀ col, cols.contains col = true →
      categorize_transaction cols row (some col) =
        (KEYWORD_TABLE.find? (fun e =>
          keywordHit e.2 (typeValueAt cols row col))).map Prod.fst) ∧
    (∀ col, cols.contains col = true →
      keywordHit PURCHASE_KEYWORDS (typeValueAt cols row col) = false →
      keywordHit SALE_KEYWORDS (typeValueAt cols row col) = false →
      keywordHit DIVIDEND_KEYWORDS (typeValueAt cols row col) = false →
      keywordHit TAX_KEYWORDS (typeValueAt cols row col) = true →
      categorize_transaction cols row (some col) = some "tax") := by
  have key : ∀ col, cols.contains col = true →
      categorize_transaction cols row (some col) =
        (KEYWORD_TABLE.find? (fun e =>
          keywordHit e.2 (typeValueAt cols row col))).map Prod.fst := by
    intro col hc
    simp only [categorize_transaction, hc, if_true]
    have ht : typeValueAt cols row col =
        pyLower (pyStrip (pyStr (row.getD (idxOfStr col cols) Cell.na))) := rfl
    rw [ht]
    cases hf : KEYWORD_TABLE.find? (fun e =>
        keywordHit e.2 (pyLower (pyStrip (pyStr (row.getD (idxOfStr col cols) Cell.na))))) with
    | none => rfl
    | some e => rfl
  refine ⟨by simp [categorize_transaction], ?_, key, ?_⟩
  · intro col hc
    have hnm : ¬ col ∈ cols := by simpa using hc
    simp [categorize_transaction, hc, hnm]
  · intro col hc h1 h2 h3 h4
    rw [key col hc]
    simp [KEYWORD_TABLE, List.find?, h1, h2, h3, h4]

theorem claim_C3_witness :
    (["Transaction Type"] : List String).contains "Transaction Type" = true ∧
    keywordHit PURCHASE_KEYWORDS
      (typeValueAt ["Transaction Type"] [.str " Foreign Tax Fee "] "Transaction Type") = false ∧
    keywordHit SALE_KEYWORDS
      (typeValueAt ["Transaction Type"] [.str " Foreign Tax Fee "] "Transaction Type") = false ∧
    keywordHit DIVIDEND_KEYWORDS
      (typeValueAt ["Transaction Type"] [.str " Foreign Tax Fee "] "Transaction Type") = false ∧
    keywordHit TAX_KEYWORDS
      (typeValueAt ["Transaction Type"] [.str " Foreign Tax Fee "] "Transaction Type") = true ∧
    keywordHit FEE_KEYWORDS
      (typeValueAt ["Transaction Type"] [.str " Foreign Tax Fee "] "Transaction Type") = true ∧
    categorize_transaction ["Transaction Type"] [.str " Foreign Tax Fee "]
      (some "Transaction Type") = some "tax" :=
  ⟨by decide, by decide, by decide, by decide, by decide, by decide,
    (claim_C3 ["Transaction Type"] [.str " Foreign Tax Fee "]).2.2.2 "Transaction Type"
      (by decide) (by decide) (by decide) (by decide) (by decide)⟩

/-- C4: for dividends, taxes and transfers the record amount is the first of
positions 9, 10, 5 that parses as a float (spelled out as the fallback
chain), the transform failing when none of the three parses or when the date
at position 0 fails to parse. -/
theorem claim_C4 (row : List Cell) (sym : Option String) (tt : String) :
    (∀ a, amountChain row = some a ↔
      (parse_float (get_cell_value row 9 .na) = some a ∨
       (parse_float (get_cell_value row 9 .na) = none ∧
        parse_float (get_cell_value row 10 .na) = some a) ∨
       (parse_float (get_cell_value row 9 .na) = none ∧
        parse_float (get_cell_value row 10 .na) = none ∧
        parse_float (get_cell_value row 5 .na) = some a))) ∧
    (parse_date (get_cell_value row 0 .na) = none →
      transform_to_dividend row sym = none ∧ transform_to_tax row sym = none ∧
      transform_to_transfer row tt = none) ∧
    (amountChain row = none →
      transform_to_dividend row sym = none ∧ transform_to_tax row sym = none ∧
      transform_to_transfer row tt = none) ∧
    (transform_to_dividend row sym).map Dividend.amount =
      (parse_date (get_cell_value row 0 .na)).bind (fun _ => amountChain row) ∧
    (transform_to_tax row sym).map Tax.amount =
      (parse_date (get_cell_value row 0 .na)).bind (fun _ => amountChain row) ∧
    (transform_to_transfer row tt).map Transfer.amount =
      (parse_date (get_cell_value row 0 .na)).bind (fun _ => amountChain row) := by
  refine ⟨?_, ?_, ?_, ?_, ?_, ?_⟩
  · intro a
    unfold amountChain
    rcases h9 : parse_float (get_cell_value row 9 .na) with _ | a9
    · rcases h10 : parse_float (get_cell_value row 10 .na) with _ | a10
      · simp
      · simp
    · simp
  all_goals
    rcases h0 : parse_date (get_cell_value row 0 .na) with _ | ds <;>
    rcases hc : amountChain row with _ | a <;>
      simp [transform_to_dividend, transform_to_tax, transform_to_transfer, h0, hc]

theorem claim_C4_witness :
    amountChain [Cell.str "2023-01-15", .na, .na, .na, .na, .str "7"] =
      some (.num 7 0) ∧
    (parse_float (get_cell_value
        [Cell.str "2023-01-15", .na, .na, .na, .na, .str "7"] 9 .na) = some (.num 7 0) ∨
     (parse_float (get_cell_value
        [Cell.str "2023-01-15", .na, .na, .na, .na, .str "7"] 9 .na) = none ∧
      parse_float (get_cell_value
        [Cell.str "2023-01-15", .na, .na, .na, .na, .str "7"] 10 .na) = some (.num 7 0)) ∨
     (parse_float (get_cell_value
        [Cell.str "2023-01-15", .na, .na, .na, .na, .str "7"] 9 .na) = none ∧
      parse_float (get_cell_value
        [Cell.str "2023-01-15", .na, .na, .na, .na, .str "7"] 10 .na) = none ∧
      parse_float (get_cell_value
        [Cell.str "2023-01-15", .na, .na, .na, .na, .str "7"] 5 .na) = some (.num 7 0))) ∧
    parse_date (get_cell_value ([Cell.na] : List Cell) 0 .na) = none ∧
    transform_to_dividend ([Cell.na] : List Cell) none = none ∧
    (transform_to_dividend [Cell.str "2023-01-15", .na, .na, .na, .na, .str "7"] none).map
      Dividend.amount =
      (parse_date (get_cell_value
        [Cell.str "2023-01-15", .na, .na, .na, .na, .str "7"] 0 .na)).bind
        (fun _ => amountChain [Cell.str "2023-01-15", .na, .na, .na, .na, .str "7"]) :=
  ⟨by decide,
    (claim_C4 [Cell.str "2023-01-15", .na, .na, .na, .na, .str "7"] none "deposit").1
      (.num 7 0) |>.mp (by decide),
    by decide,
    ((claim_C4 ([Cell.na] : List Cell) none "deposit").2.1 (by decide)).1,
    (claim_C4 [Cell.str "2023-01-15", .na, .na, .na, .na, .str "7"] none "deposit").2.2.2.1⟩

theorem parse_job_fields (jobId : String) (files : List JobFile) :
    (parse_job jobId files).purchases = (files.foldl process_file {}).purchases ∧
    (parse_job jobId files).sales = (files.foldl process_file {}).sales ∧
    (parse_job jobId files).dividends = (files.foldl process_file {}).dividends ∧
    (parse_job jobId files).taxes = (files.foldl process_file {}).taxes ∧
    (parse_job jobId files).transfers = (files.foldl process_file {}).transfers ∧
    (parse_job jobId files).errors = (files.foldl process_file {}).errors :=
  ⟨rfl, rfl, rfl, rfl, rfl, rfl⟩

/-- C5 (amended): a file-level failure (load failure or empty frame) leaves
the five record sequences of the job exactly as if the file were absent and
contributes one diagnostic naming the file, the other files being processed
unchanged; a job none of whose files contributes records returns five empty
sequences together with whatever diagnostics accumulated (possibly none),
never an exception. -/
theorem claim_C5 :
    (∀ (jobId : String) (fs1 fs2 : List JobFile) (f : JobFile),
      fileFailure f = true →
      (parse_job jobId (fs1 ++ f :: fs2)).purchases =
        (parse_job jobId (fs1 ++ fs2)).purchases ∧
      (parse_job jobId (fs1 ++ f :: fs2)).sales =
        (parse_job jobId (fs1 ++ fs2)).sales ∧
      (parse_job jobId (fs1 ++ f :: fs2)).dividends =
        (parse_job jobId (fs1 ++ fs2)).dividends ∧
      (parse_job jobId (fs1 ++ f :: fs2)).taxes =
        (parse_job jobId (fs1 ++ fs2)).taxes ∧
      (parse_job jobId (fs1 ++ f :: fs2)).transfers =
        (parse_job jobId (fs1 ++ fs2)).transfers ∧
      failDiag f ∈ (parse_job jobId (fs1 ++ f :: fs2)).errors ∧
      pyContains (failDiag f) f.name = true) ∧
    (∀ (jobId : String) (fs : List JobFile),
      (∀ f ∈ fs, fileBuckets f = {}) →
      (parse_job jobId fs).purchases = [] ∧ (parse_job jobId fs).sales = [] ∧
      (parse_job jobId fs).dividends = [] ∧ (parse_job jobId fs).taxes = [] ∧
      (parse_job jobId fs).transfers = []) := by
  constructor
  · intro jobId fs1 fs2 f hfail
    have hmid := process_file_failure hfail (fs1.foldl process_file {})
    have hrec := foldl_records_ext fs2 (process_file (fs1.foldl process_file {}) f)
      (fs1.foldl process_file {}) hmid.1 hmid.2.1 hmid.2.2.1 hmid.2.2.2.1 hmid.2.2.2.2.1
    have e1 : (fs1 ++ f :: fs2).foldl process_file ({} : ParserState) =
        fs2.foldl process_file (process_file (fs1.foldl process_file {}) f) := by
      rw [List.foldl_append, List.foldl_cons]
    have e2 : (fs1 ++ fs2).foldl process_file ({} : ParserState) =
        fs2.foldl process_file (fs1.foldl process_file {}) := by
      rw [List.foldl_append]
    have hp := parse_job_fields jobId (fs1 ++ f :: fs2)
    have hq := parse_job_fields jobId (fs1 ++ fs2)
    refine ⟨?_, ?_, ?_, ?_, ?_, ?_, failDiag_names f⟩
    · rw [hp.1, hq.1, e1, e2]
      exact hrec.1
    · rw [hp.2.1, hq.2.1, e1, e2]
      exact hrec.2.1
    · rw [hp.2.2.1, hq.2.2.1, e1, e2]
      exact hrec.2.2.1
    · rw [hp.2.2.2.1, hq.2.2.2.1, e1, e2]
      exact hrec.2.2.2.1
    · rw [hp.2.2.2.2.1, hq.2.2.2.2.1, e1, e2]
      exact hrec.2.2.2.2
    · rw [hp.2.2.2.2.2, foldl_errors]
      have h1 : fileErrors f ∈ (fs1 ++ f :: fs2).map fileErrors :=
        List.mem_map_of_mem fileErrors (by simp)
      refine List.mem_append_right _ (List.mem_flatten.mpr ⟨fileErrors f, h1, ?_⟩)
      rw [(fileErrors_of_failure hfail).2]
      simp
  · intro jobId fs hb
    have hall : (fs.map (fun f => (fileBuckets f).purchases)).flatten = [] ∧
        (fs.map (fun f => (fileBuckets f).sales)).flatten = [] ∧
        (fs.map (fun f => (fileBuckets f).dividends)).flatten = [] ∧
        (fs.map (fun f => (fileBuckets f).taxes)).flatten = [] ∧
        (fs.map (fun f => (fileBuckets f).transfers)).flatten = [] := by
      refine ⟨?_, ?_, ?_, ?_, ?_⟩ <;>
      · rw [List.flatten_eq_nil_iff]
        intro l hl
        rcases List.mem_map.mp hl with ⟨f, hf, rfl⟩
        rw [hb f hf]
    have hr := foldl_records fs ({} : ParserState)
    have hp := parse_job_fields jobId fs
    refine ⟨?_, ?_, ?_, ?_, ?_⟩
    · rw [hp.1]
      have := hr.1
      rw [hall.1] at this
      simpa using this.eq_nil
    · rw [hp.2.1]
      have := hr.2.1
      rw [hall.2.1] at this
      simpa using this.eq_nil
    · rw [hp.2.2.1]
      have := hr.2.2.1
      rw [hall.2.2.1] at this
      simpa using this.eq_nil
    · rw [hp.2.2.2.1]
      have := hr.2.2.2.1
      rw [hall.2.2.2.1] at this
      simpa using this.eq_nil
    · rw [hp.2.2.2.2.1]
      have := hr.2.2.2.2
      rw [hall.2.2.2.2] at this
      simpa using this.eq_nil

/-- A file whose load fails. -/
def f5bad : JobFile := ⟨"missing.csv", .loadFail "No such file"⟩

/-- A well-formed file whose single row is silently non-transactional. -/
def fZfile : JobFile := ⟨"z.csv", .loaded ⟨["Transaction Type"], [[.str "hello"]]⟩⟩

theorem claim_C5_witness :
    fileFailure f5bad = true ∧
    (∀ f ∈ [fZfile], fileBuckets f = {}) ∧
    ((parse_job "j" ([] ++ f5bad :: [fZfile])).purchases =
        (parse_job "j" ([] ++ [fZfile])).purchases ∧
      (parse_job "j" ([] ++ f5bad :: [fZfile])).sales =
        (parse_job "j" ([] ++ [fZfile])).sales ∧
      (parse_job "j" ([] ++ f5bad :: [fZfile])).dividends =
        (parse_job "j" ([] ++ [fZfile])).dividends ∧
      (parse_job "j" ([] ++ f5bad :: [fZfile])).taxes =
        (parse_job "j" ([] ++ [fZfile])).taxes ∧
      (parse_job "j" ([] ++ f5bad :: [fZfile])).transfers =
        (parse_job "j" ([] ++ [fZfile])).transfers ∧
      failDiag f5bad ∈ (parse_job "j" ([] ++ f5bad :: [fZfile])).errors ∧
      pyContains (failDiag f5bad) f5bad.name = true) ∧
    ((parse_job "j" [fZfile]).purchases = [] ∧ (parse_job "j" [fZfile]).sales = [] ∧
      (parse_job "j" [fZfile]).dividends = [] ∧ (parse_job "j" [fZfile]).taxes = [] ∧
      (parse_job "j" [fZfile]).transfers = []) :=
  ⟨by decide, by decide, claim_C5.1 "j" [] [fZfile] f5bad (by decide),
    claim_C5.2 "j" [fZfile] (by decide)⟩

theorem claim_C5_counterexample :
    (parse_job "j" [fZfile]).purchases = [] ∧
    (parse_job "j" [fZfile]).sales = [] ∧
    (parse_job "j" [fZfile]).dividends = [] ∧
    (parse_job "j" [fZfile]).taxes = [] ∧
    (parse_job "j" [fZfile]).transfers = [] ∧
    (parse_job "j" [fZfile]).errors = [] := by decide

/-- C6 (amended): over a fixed multiset of input files the combined result is
independent of processing order up to reordering of each output sequence:
permuting the file list permutes each of the five merged sequences. -/
theorem claim_C6 (jobId : String) (fs fs' : List JobFile) (h : fs.Perm fs') :
    (parse_job jobId fs).purchases.Perm (parse_job jobId fs').purchases ∧
    (parse_job jobId fs).sales.Perm (parse_job jobId fs').sales ∧
    (parse_job jobId fs).dividends.Perm (parse_job jobId fs').dividends ∧
    (parse_job jobId fs).taxes.Perm (parse_job jobId fs').taxes ∧
    (parse_job jobId fs).transfers.Perm (parse_job jobId fs').transfers := by
  have hr := foldl_records fs ({} : ParserState)
  have hr' := foldl_records fs' ({} : ParserState)
  have hp := parse_job_fields jobId fs
  have hp' := parse_job_fields jobId fs'
  refine ⟨?_, ?_, ?_, ?_, ?_⟩
  · rw [hp.1, hp'.1]
    exact (hr.1.trans (by simpa using (h.map (fun f => (fileBuckets f).purchases)).flatten)).trans
      (by simpa using hr'.1.symm)
  · rw [hp.2.1, hp'.2.1]
    exact (hr.2.1.trans (by simpa using (h.map (fun f => (fileBuckets f).sales)).flatten)).trans
      (by simpa using hr'.2.1.symm)
  · rw [hp.2.2.1, hp'.2.2.1]
    exact (hr.2.2.1.trans (by simpa using (h.map (fun f => (fileBuckets f).dividends)).flatten)).trans
      (by simpa using hr'.2.2.1.symm)
  · rw [hp.2.2.2.1, hp'.2.2.2.1]
    exact (hr.2.2.2.1.trans (by simpa using (h.map (fun f => (fileBuckets f).taxes)).flatten)).trans
      (by simpa using hr'.2.2.2.1.symm)
  · rw [hp.2.2.2.2.1, hp'.2.2.2.2.1]
    exact (hr.2.2.2.2.trans (by simpa using (h.map (fun f => (fileBuckets f).transfers)).flatten)).trans
      (by simpa using hr'.2.2.2.2.symm)

/-- One single-purchase file; fA6 and fB6 differ only in the symbol. -/
def fA6 : JobFile :=
  ⟨"a.csv", .loaded ⟨["Date", "Transaction Type", "Company", "Symbol", "Quantity", "Price"],
    [[.str "2023-01-15", .str "Buy", .str "A", .str "A", .str "1", .str "1"]]⟩⟩

/-- The same file shape with symbol B. -/
def fB6 : JobFile :=
  ⟨"b.csv", .loaded ⟨["Date", "Transaction Type", "Company", "Symbol", "Quantity", "Price"],
    [[.str "2023-01-15", .str "Buy", .str "B", .str "B", .str "1", .str "1"]]⟩⟩

theorem claim_C6_witness :
    ([fA6, fB6] : List JobFile).Perm [fB6, fA6] ∧
    ((parse_job "j" [fA6, fB6]).purchases.Perm (parse_job "j" [fB6, fA6]).purchases ∧
     (parse_job "j" [fA6, fB6]).sales.Perm (parse_job "j" [fB6, fA6]).sales ∧
     (parse_job "j" [fA6, fB6]).dividends.Perm (parse_job "j" [fB6, fA6]).dividends ∧
     (parse_job "j" [fA6, fB6]).taxes.Perm (parse_job "j" [fB6, fA6]).taxes ∧
     (parse_job "j" [fA6, fB6]).transfers.Perm (parse_job "j" [fB6, fA6]).transfers) :=
  ⟨by decide, claim_C6 "j" [fA6, fB6] [fB6, fA6] (by decide)⟩

theorem claim_C6_counterexample :
    ([fA6, fB6] : List JobFile).Perm [fB6, fA6] ∧
    (parse_job "j" [fA6, fB6]).purchases.map Purchase.company_symbol = ["A", "B"] ∧
    (parse_job "j" [fB6, fA6]).purchases.map Purchase.company_symbol = ["B", "A"] ∧
    ¬ (parse_job "j" [fA6, fB6]).purchases = (parse_job "j" [fB6, fA6]).purchases := by
  decide

/-- C7 (amended): merging with an empty batch on either side returns the
other operand unchanged, and on batches of canonically dated records each
sorted non-decreasing by date the chained merge is associative, so any
grouping of such batches yields the same final sequence. -/
theorem claim_C7 {α : Type} (dateOf : α → String) (A B C : List α) :
    merge_transactions dateOf A [] = A ∧
    merge_transactions dateOf [] A = A ∧
    ((∀ a ∈ A, canonicalDate (dateOf a) = true) →
     (∀ b ∈ B, canonicalDate (dateOf b) = true) →
     (∀ c ∈ C, canonicalDate (dateOf c) = true) →
     A.Pairwise (fun a b => dateLeB dateOf a b = true) →
     B.Pairwise (fun a b => dateLeB dateOf a b = true) →
     C.Pairwise (fun a b => dateLeB dateOf a b = true) →
     merge_transactions dateOf (merge_transactions dateOf A B) C =
       merge_transactions dateOf A (merge_transactions dateOf B C)) := by
  refine ⟨merge_transactions_nil _ _, ?_, ?_⟩
  · by_cases hA : A.isEmpty
    · simp [merge_transactions, hA, List.isEmpty_iff.mp hA]
    · simp [merge_transactions, hA]
  · intro hA hB hC sA sB sC
    have htr := fun a b c => dateLeB_trans_canonical dateOf a b c
    have hto := fun a b => dateLeB_total_canonical dateOf a b
    have hABm : ∀ x ∈ List.merge A B (dateLeB dateOf),
        canonicalDate (dateOf x) = true := by
      intro x hx
      rcases List.mem_merge.mp hx with h | h
      exacts [hA x h, hB x h]
    have hBCm : ∀ x ∈ List.merge B C (dateLeB dateOf),
        canonicalDate (dateOf x) = true := by
      intro x hx
      rcases List.mem_merge.mp hx with h | h
      exacts [hB x h, hC x h]
    have sAB := merge_pairwise_restricted (dateLeB dateOf)
      (fun x => canonicalDate (dateOf x) = true) htr hto A B hA hB sA sB
    have sBC := merge_pairwise_restricted (dateLeB dateOf)
      (fun x => canonicalDate (dateOf x) = true) htr hto B C hB hC sB sC
    calc merge_transactions dateOf (merge_transactions dateOf A B) C
        = List.merge (List.merge A B (dateLeB dateOf)) C (dateLeB dateOf) := by
          rw [merge_transactions_eq_merge dateOf A B hA hB sA sB]
          exact merge_transactions_eq_merge dateOf _ C hABm hC sAB sC
      _ = List.merge A (List.merge B C (dateLeB dateOf)) (dateLeB dateOf) :=
          merge_assoc_restricted (dateLeB dateOf)
            (fun x => canonicalDate (dateOf x) = true) htr hto A B C hA hB hC
      _ = merge_transactions dateOf A (merge_transactions dateOf B C) := by
          rw [merge_transactions_eq_merge dateOf B C hB hC sB sC]
          exact (merge_transactions_eq_merge dateOf A _ hA hBCm sA sBC).symm

theorem claim_C7_witness :
    (∀ a ∈ [mkP "2023-01-10" "a"], canonicalDate (Purchase.date a) = true) ∧
    (∀ b ∈ [mkP "2023-01-20" "b"], canonicalDate (Purchase.date b) = true) ∧
    (∀ c ∈ [mkP "2023-01-25" "c"], canonicalDate (Purchase.date c) = true) ∧
    (merge_transactions Purchase.date [mkP "2023-01-10" "a"] [] = [mkP "2023-01-10" "a"] ∧
     merge_transactions Purchase.date [] [mkP "2023-01-10" "a"] = [mkP "2023-01-10" "a"] ∧
     merge_transactions Purchase.date
        (merge_transactions Purchase.date [mkP "2023-01-10" "a"] [mkP "2023-01-20" "b"])
        [mkP "2023-01-25" "c"] =
      merge_transactions Purchase.date [mkP "2023-01-10" "a"]
        (merge_transactions Purchase.date [mkP "2023-01-20" "b"] [mkP "2023-01-25" "c"])) :=
  ⟨by decide, by decide, by decide,
    (claim_C7 Purchase.date [mkP "2023-01-10" "a"] [mkP "2023-01-20" "b"]
      [mkP "2023-01-25" "c"]).1,
    (claim_C7 Purchase.date [mkP "2023-01-10" "a"] [mkP "2023-01-20" "b"]
      [mkP "2023-01-25" "c"]).2.1,
    (claim_C7 Purchase.date [mkP "2023-01-10" "a"] [mkP "2023-01-20" "b"]
      [mkP "2023-01-25" "c"]).2.2 (by decide) (by decide) (by decide)
      (by decide) (by decide) (by decide)⟩

theorem claim_C7_counterexample :
    (([mkP "2023-01-10" "c", mkP "2023-01-20" "a", mkP "2023-01-32" "b"] : List Purchase).Pairwise
      (fun a b => dateLeB Purchase.date a b = true)) ∧
    (merge_transactions Purchase.date
        (merge_transactions Purchase.date [mkP "2023-01-20" "a"] [mkP "2023-01-32" "b"])
        [mkP "2023-01-10" "c"]).map Purchase.company_symbol = ["c", "a", "b"] ∧
    (merge_transactions Purchase.date [mkP "2023-01-20" "a"]
        (merge_transactions Purchase.date [mkP "2023-01-32" "b"] [mkP "2023-01-10" "c"])).map
      Purchase.company_symbol = ["a", "b", "c"] ∧
    ¬ merge_transactions Purchase.date
        (merge_transactions Purchase.date [mkP "2023-01-20" "a"] [mkP "2023-01-32" "b"])
        [mkP "2023-01-10" "c"] =
      merge_transactions Purchase.date [mkP "2023-01-20" "a"]
        (merge_transactions Purchase.date [mkP "2023-01-32" "b"] [mkP "2023-01-10" "c"]) := by
  decide

/-- C8 (amended): every record any of the five transforms constructs carries
a date that is either a strftime rendering — one to four year digits (years
below 1000 unpadded), hyphen, two month digits, hyphen, two day digits — or
an echoed fast-path string, which may keep one trailing newline; the digits
need not denote a valid calendar date. -/
theorem claim_C8 (row : List Cell) (sym : Option String) (tt : String) :
    (∀ p, transform_to_purchase row = some p → looseDateOutput p.date = true) ∧
    (∀ s, transform_to_sale row = some s → looseDateOutput s.date = true) ∧
    (∀ d, transform_to_dividend row sym = some d → looseDateOutput d.date = true) ∧
    (∀ t, transform_to_tax row sym = some t → looseDateOutput t.date = true) ∧
    (∀ t, transform_to_transfer row tt = some t → looseDateOutput t.date = true) := by
  have hP : ∀ p, transform_to_purchase row = some p → looseDateOutput p.date = true := by
    intro p hp
    rcases h0 : parse_date (get_cell_value row 0 .na) with _ | ds
    · simp [transform_to_purchase, h0] at hp
    · rcases h4 : parse_float (get_cell_value row 4 .na) with _ | q
      · simp [transform_to_purchase, h0, h4] at hp
      · rcases h5 : parse_float (get_cell_value row 5 .na) with _ | u
        · simp [transform_to_purchase, h0, h4, h5] at hp
        · simp only [transform_to_purchase, h0, h4, h5, Option.some.injEq] at hp
          subst hp
          exact parse_date_loose h0
  refine ⟨hP, ?_, ?_, ?_, ?_⟩
  · intro s hs
    rcases hq : transform_to_purchase row with _ | p0
    · simp [transform_to_sale, hq] at hs
    · simp only [transform_to_sale, hq, Option.some.injEq] at hs
      subst hs
      exact hP p0 hq
  · intro d hd
    rcases h0 : parse_date (get_cell_value row 0 .na) with _ | ds
    · simp [transform_to_dividend, h0] at hd
    · rcases hc : amountChain row with _ | a
      · simp [transform_to_dividend, h0, hc] at hd
      · simp only [transform_to_dividend, h0, hc, Option.some.injEq] at hd
        subst hd
        exact parse_date_loose h0
  · intro t ht
    rcases h0 : parse_date (get_cell_value row 0 .na) with _ | ds
    · simp [transform_to_tax, h0] at ht
    · rcases hc : amountChain row with _ | a
      · simp [transform_to_tax, h0, hc] at ht
      · simp only [transform_to_tax, h0, hc, Option.some.injEq] at ht
        subst ht
        exact parse_date_loose h0
  · intro t ht
    rcases h0 : parse_date (get_cell_value row 0 .na) with _ | ds
    · simp [transform_to_transfer, h0] at ht
    · rcases hc : amountChain row with _ | a
      · simp [transform_to_transfer, h0, hc] at ht
      · simp only [transform_to_transfer, h0, hc, Option.some.injEq] at ht
        subst ht
        exact parse_date_loose h0

theorem claim_C8_witness :
    transform_to_purchase c2row = some c2rec ∧
    looseDateOutput c2rec.date = true :=
  ⟨by decide, (claim_C8 c2row none "deposit").1 c2rec (by decide)⟩

theorem claim_C8_counterexample :
    (transform_to_purchase [Cell.str "2023-13-45", .na, .na, .na, .str "1", .str "1"]).map
      Purchase.date = some "2023-13-45" ∧
    canonicalDate "2023-13-45" = false ∧
    (transform_to_purchase [Cell.str "2023-01-15\n", .na, .na, .na, .str "1", .str "1"]).map
      Purchase.date = some "2023-01-15\n" ∧
    isShape ("2023-01-15\n").data = false ∧
    (transform_to_purchase [Cell.str "3/4/0005", .na, .na, .na, .str "1", .str "1"]).map
      Purchase.date = some "5-03-04" ∧
    isShape ("5-03-04").data = false := by decide

/-- C9 (amended): parse_date is idempotent on every result whose normalized
year has at least four digits — any other successful parse is the strftime
rendering of a year below 1000, which glibc prints without zero padding and
which may fail to re-parse; a string already in canonical four-digit
YYYY-MM-DD shape is always returned unchanged. -/
theorem claim_C9 (v : Cell) (s : String) (hwf : wellFormedCell v = true)
    (h : parse_date v = some s) :
    (parse_date (.str s) = some s ∨ ∃ y m d, y < 1000 ∧ s = formatDate y m d) ∧
    ∀ t : String, isShape t.data = true → parse_date (.str t) = some t := by
  refine ⟨parse_date_idem_or_small h, ?_⟩
  intro t ht
  simp only [parse_date]
  rw [if_pos (by
    unfold fastPathMatch
    rw [ht]
    simp)]

theorem claim_C9_witness :
    wellFormedCell (Cell.str "01/02/2023") = true ∧
    parse_date (Cell.str "01/02/2023") = some "2023-01-02" ∧
    ((parse_date (Cell.str "2023-01-02") = some "2023-01-02" ∨
      ∃ y m d, y < 1000 ∧ "2023-01-02" = formatDate y m d) ∧
     ∀ t : String, isShape t.data = true → parse_date (.str t) = some t) :=
  ⟨by decide, by decide,
    claim_C9 (Cell.str "01/02/2023") "2023-01-02" (by decide) (by decide)⟩

theorem claim_C9_counterexample :
    parse_date (Cell.str "3/4/0005") = some "5-03-04" ∧
    parse_date (Cell.str "5-03-04") = none := by decide

/-- C10: compare_dates always returns -1, 0 or 1; a left operand that the
dash pattern does not parse compares equal (0) to everything in both
positions; and both the two-pointer merge and the sort fallback return a
permutation of their combined input on all records, malformed dates
included. -/
theorem claim_C10 (d1 d2 : String) :
    (compare_dates d1 d2 = -1 ∨ compare_dates d1 d2 = 0 ∨ compare_dates d1 d2 = 1) ∧
    (strptimeDate '-' .ymd d1.data = none →
      compare_dates d1 d2 = 0 ∧ compare_dates d2 d1 = 0) ∧
    ∀ (A B : List Purchase),
      (sorted_merge_py Purchase.date A B).Perm (A ++ B) ∧
      (simple_merge_py Purchase.date A B).Perm (A ++ B) := by
  refine ⟨compare_dates_mem d1 d2, ?_, ?_⟩
  · intro h
    constructor
    · unfold compare_dates
      rw [h]
    · unfold compare_dates
      rw [h]
      rcases strptimeDate '-' .ymd d2.data with _ | t <;> rfl
  · intro A B
    constructor
    · rw [sorted_merge_py_eq_merge]
      exact List.merge_perm_append _
    · exact pySortBy_perm _ _

theorem claim_C10_witness :
    strptimeDate '-' Ord3.ymd ("garbage").data = none ∧
    (compare_dates "garbage" "2023-01-01" = 0 ∧
     compare_dates "2023-01-01" "garbage" = 0) ∧
    ((sorted_merge_py Purchase.date [mkP "garbage" "a"] [mkP "2023-01-01" "b"]).Perm
      ([mkP "garbage" "a"] ++ [mkP "2023-01-01" "b"]) ∧
     (simple_merge_py Purchase.date [mkP "garbage" "a"] [mkP "2023-01-01" "b"]).Perm
      ([mkP "garbage" "a"] ++ [mkP "2023-01-01" "b"])) :=
  ⟨by decide, (claim_C10 "garbage" "2023-01-01").2.1 (by decide),
    (claim_C10 "garbage" "2023-01-01").2.2 [mkP "garbage" "a"] [mkP "2023-01-01" "b"]⟩
